import Mathlib

/-!
Shallow embedding of the Corpus Sync Engine of the RAG repository
(geminiService: upload ledger, corpus differ, uploader retry/poll loop,
sync orchestrator drive loop, remote store directory and reconciliation).

All definitions are translated from the TypeScript source; machine-level
details irrelevant to the verified properties (actual network calls, file
bytes, real timestamps) are abstracted as explicit parameters or oracles,
while control flow, data shapes and constants follow the source.
-/

set_option autoImplicit false

namespace RAG

universe u
variable {α : Type u}

/-! ### First-occurrence deduplication (JS `Map` insertion / `Set` semantics)

A JS `Map`/`Set` preserves insertion order and keeps the first occurrence of
each key.  `dedupFirst` is the resulting list: each element keeps its first
occurrence, later duplicates are dropped. -/

def dedupFirst [DecidableEq α] : List α → List α
  | [] => []
  | a :: l => a :: dedupFirst (l.filter (fun b => b != a))
termination_by l => l.length
decreasing_by
  simp only [List.length_cons]
  exact Nat.lt_succ_of_le (List.length_filter_le _ _)



/-! ### The in-directory duplicate scan of `uploadDirectoryToRagStore`

Mirrors the loop
`for (const fileName of allFilesArray) { if (uniqueFilesMap.has(fileName))
duplicatesInDirectory.push(fileName) else uniqueFilesMap.set(fileName, fileName) }`:
the first component is the insertion-ordered key list of `uniqueFilesMap`,
the second is `duplicatesInDirectory`. -/

def dedupScanGo [DecidableEq α] : List α → List α → List α → List α × List α
  | seen, dups, [] => (seen, dups)
  | seen, dups, fileName :: rest =>
    if fileName ∈ seen then dedupScanGo seen (dups ++ [fileName]) rest
    else dedupScanGo (seen ++ [fileName]) dups rest

def dedupScan [DecidableEq α] (files : List α) : List α × List α :=
  dedupScanGo [] [] files

/-! ### Supported-extension filter of `uploadDirectoryToRagStore`

`path.extname` (Node): the substring from the last dot of the file name,
empty when there is no dot or the only dot is the leading character. -/

def lastDotIdx (cs : List Char) : Option Nat :=
  (cs.enum.filter (fun p => p.2 = '.')).getLast?.map (fun p => p.1)

def extname (fileName : String) : String :=
  match lastDotIdx fileName.toList with
  | none => ""
  | some 0 => ""
  | some i => String.mk (fileName.toList.drop i)

def supportedExtensions : List String :=
  [".txt", ".pdf", ".doc", ".docx", ".md", ".html", ".json"]

/-- `ext.toLowerCase()`, written over the character list so that it
evaluates by kernel reduction. -/
def toLowerString (s : String) : String :=
  String.mk (s.toList.map Char.toLower)

def isSupportedFile (fileName : String) : Bool :=
  supportedExtensions.contains (toLowerString (extname fileName))

/-! ### Upload tracker (the Upload Ledger)

`.upload-tracker.json` maps a store name to `{ uploadedFiles, lastUpdate }`.
The JSON object is modelled as an association list with replacement on
assignment; real timestamps are passed in as the `now` argument. -/

structure TrackerEntry where
  uploadedFiles : List String
  lastUpdate : String
deriving Repr, DecidableEq

abbrev UploadTracker := List (String × TrackerEntry)

def findEntry (tracker : UploadTracker) (key : String) : Option TrackerEntry :=
  (tracker.find? (fun p => p.1 == key)).map (fun p => p.2)

def setEntry : UploadTracker → String → TrackerEntry → UploadTracker
  | [], key, v => [(key, v)]
  | (k, w) :: t, key, v =>
    if k == key then (key, v) :: t else (k, w) :: setEntry t key v

def removeEntry : UploadTracker → String → UploadTracker
  | [], _ => []
  | (k, w) :: t, key => if k == key then removeEntry t key else (k, w) :: removeEntry t key

/-- `addUploadedFile(ragStoreName, fileName)`: load the tracker, create the
entry if absent, append the file name and persist only when it is not
already recorded for that store (otherwise a warning is logged and nothing
is written). -/
def addUploadedFile (now : String) (tracker : UploadTracker)
    (ragStoreName fileName : String) : UploadTracker :=
  let entry := (findEntry tracker ragStoreName).getD
    { uploadedFiles := [], lastUpdate := now }
  if fileName ∈ entry.uploadedFiles then
    tracker
  else
    setEntry tracker ragStoreName
      { uploadedFiles := entry.uploadedFiles ++ [fileName], lastUpdate := now }

def clearUploadTracker (tracker : UploadTracker) (ragStoreName : String) : UploadTracker :=
  removeEntry tracker ragStoreName

/-- `listDocumentsInRagStore`: returns the tracked set for the store; when the
underlying sequence holds duplicates it collapses them (JS `Set`, i.e. first
occurrences in order) and persists the corrected tracker before returning. -/
def listDocumentsInRagStore (now : String) (tracker : UploadTracker)
    (ragStoreName : String) : List String × UploadTracker :=
  let uploadedFiles := ((findEntry tracker ragStoreName).map
    (fun e => e.uploadedFiles)).getD []
  let uniqueFiles := dedupFirst uploadedFiles
  if uniqueFiles.length ≠ uploadedFiles.length then
    (uniqueFiles, setEntry tracker ragStoreName
      { uploadedFiles := uniqueFiles, lastUpdate := now })
  else
    (uniqueFiles, tracker)

/-- `deduplicateTrackerEntries`: maintenance operation reporting
`(before, after, duplicatesRemoved)`; returns zeros and leaves the tracker
untouched when the store has no entry. -/
def deduplicateTrackerEntries (now : String) (tracker : UploadTracker)
    (ragStoreName : String) : (Nat × Nat × Nat) × UploadTracker :=
  match findEntry tracker ragStoreName with
  | none => ((0, 0, 0), tracker)
  | some e =>
    let beforeCount := e.uploadedFiles.length
    let uniqueFiles := dedupFirst e.uploadedFiles
    let afterCount := uniqueFiles.length
    ((beforeCount, afterCount, beforeCount - afterCount),
      setEntry tracker ragStoreName { uploadedFiles := uniqueFiles, lastUpdate := now })

/-! ### Corpus Differ

The deduplicate-and-diff step of `uploadDirectoryToRagStore`: deduplicate the
supported files of the directory by filename (first occurrence wins, later
occurrences land in `duplicatesInDirectory`); in resume mode additionally
drop the filenames already recorded for the store, collecting them in
`alreadyUploaded`.  Returns `(filesToUpload, duplicatesInDirectory,
alreadyUploaded)`. -/
def corpusDiffer (supportedFiles : List String) (uploadedFiles : List String)
    (resumeMode : Bool) : List String × List String × List String :=
  let scan := dedupScan supportedFiles
  let allFiles := scan.1
  let duplicatesInDirectory := scan.2
  if resumeMode then
    let alreadyUploaded := allFiles.filter (fun f => uploadedFiles.contains f)
    let filesToUpload := allFiles.filter (fun f => !(uploadedFiles.contains f))
    (filesToUpload, duplicatesInDirectory, alreadyUploaded)
  else
    (allFiles, duplicatesInDirectory, [])

/-! ### Sync Orchestrator drive loop

Per file: emit the progress callback `(i+1, total, fileName)`, attempt the
upload (abstracted as `oracle`), and on success write the ledger
(`addUploadedFile`) and record the file in the in-session set; on failure
record `(fileName, errorMessage)` and continue.  The observable order of
side effects is kept as an explicit event trace. -/

inductive SyncEvent where
  | progress (current total : Nat) (fileName : String)
  | uploadAttempt (fileName : String)
  | ledgerWrite (fileName : String)
  | sessionSkip (fileName : String)
deriving Repr, DecidableEq

structure DriveState where
  tracker : UploadTracker
  uploadedInSession : List String
  successful : List String
  failed : List (String × String)
  skipped : List String
  trace : List SyncEvent
deriving Repr, DecidableEq

def driveStep (ragStoreName : String) (oracle : String → Except String Unit)
    (now : String) (total : Nat) (i : Nat) (fileName : String)
    (s : DriveState) : DriveState :=
  if fileName ∈ s.uploadedInSession then
    { s with
      skipped := s.skipped ++ [fileName],
      trace := s.trace ++ [SyncEvent.sessionSkip fileName] }
  else
    match oracle fileName with
    | Except.ok _ =>
      { s with
        trace := s.trace ++ [SyncEvent.progress (i+1) total fileName,
          SyncEvent.uploadAttempt fileName, SyncEvent.ledgerWrite fileName],
        tracker := addUploadedFile now s.tracker ragStoreName fileName,
        uploadedInSession := s.uploadedInSession ++ [fileName],
        successful := s.successful ++ [fileName] }
    | Except.error e =>
      { s with
        trace := s.trace ++ [SyncEvent.progress (i+1) total fileName,
          SyncEvent.uploadAttempt fileName],
        failed := s.failed ++ [(fileName, e)] }

def driveLoop (ragStoreName : String) (oracle : String → Except String Unit)
    (now : String) (total : Nat) : List String → Nat → DriveState → DriveState
  | [], _, s => s
  | fileName :: rest, i, s =>
    driveLoop ragStoreName oracle now total rest (i+1)
      (driveStep ragStoreName oracle now total i fileName s)

structure UploadResult where
  successful : List String
  failed : List (String × String)
  skipped : List String
deriving Repr, DecidableEq

structure SyncOutcome where
  result : UploadResult
  tracker : UploadTracker
  filesToUpload : List String
  trace : List SyncEvent
deriving Repr, DecidableEq

/-- The diff step of `uploadDirectoryToRagStore`: in resume mode consult the
tracker (possibly self-healing it) and run the Corpus Differ against it;
otherwise upload everything unique.  Returns the differ triple together
with the (possibly rewritten) tracker. -/
def diffPhase (ragStoreName : String) (allFilesArray : List String)
    (tracker : UploadTracker) (resumeMode : Bool) (now : String) :
    (List String × List String × List String) × UploadTracker :=
  if resumeMode then
    let healed := listDocumentsInRagStore now tracker ragStoreName
    (corpusDiffer allFilesArray healed.1 true, healed.2)
  else (corpusDiffer allFilesArray [] false, tracker)

/-- The upload loop of `uploadDirectoryToRagStore`, starting from the empty
session state with the differ's skips pre-recorded. -/
def drivePhase (ragStoreName : String) (oracle : String → Except String Unit)
    (now : String) (filesToUpload : List String) (tracker1 : UploadTracker)
    (initialSkipped : List String) : DriveState :=
  driveLoop ragStoreName oracle now filesToUpload.length filesToUpload 0
    { tracker := tracker1, uploadedInSession := [], successful := [], failed := [],
      skipped := initialSkipped, trace := [] }

/-- `uploadDirectoryToRagStore`: filter the directory listing to supported
extensions (error when none), run the Corpus Differ (consulting the tracker
in resume mode, which may self-heal it), then drive the uploads
sequentially, and aggregate `successful` / `failed` / `skipped`. -/
def uploadDirectoryToRagStore (ragStoreName : String)
    (directoryListing : List String) (tracker : UploadTracker)
    (oracle : String → Except String Unit) (resumeMode : Bool)
    (now : String) : Except String SyncOutcome :=
  let allFilesArray := directoryListing.filter isSupportedFile
  if allFilesArray.isEmpty then
    Except.error "No supported documents found in directory"
  else
    let d := diffPhase ragStoreName allFilesArray tracker resumeMode now
    let s := drivePhase ragStoreName oracle now d.1.1 d.2 (d.1.2.1 ++ d.1.2.2)
    Except.ok
      { result :=
          { successful := s.successful, failed := s.failed, skipped := s.skipped },
        tracker := s.tracker, filesToUpload := d.1.1, trace := s.trace }

/-! ### Uploader: `uploadFileToRagStore`

One attempt = submit (read the file and start the remote operation), then
poll the operation every 3 seconds, up to `maxPollAttempts` polls; on any
exception the enclosing retry loop sleeps `baseDelay * 2 ^ attempt`
milliseconds and retries, up to `maxRetries` attempts, the last failure
being rethrown as the upload-failed error.

The remote behaviour is abstracted by two oracles: `submitResult attempt`
(outcome of reading the file and submitting it on a given attempt) and
`doneAt attempt n` (whether, on that attempt, the operation reports done
after `n` polls; `n = 0` is the state returned by the submit call). -/

def timeoutMsg (fileName : String) (maxPollAttempts : Nat) : String :=
  "Upload timeout for " ++ fileName ++ " after " ++
    toString (maxPollAttempts * 3) ++ " seconds"

def uploadFailedMsg (fileName : String) (maxRetries : Nat) (err : String) : String :=
  "Failed to upload " ++ fileName ++ " after " ++ toString maxRetries ++
    " attempts: " ++ err

/-- The `while (!op.done)` poll loop of one attempt.  Returns the outcome
together with the number of polls performed (each poll is preceded by a
3000 ms delay).  `fuel` only bounds the recursion; `maxPollAttempts + 1` is
always enough. -/
def pollForCompletion (fileName : String) (doneAt : Nat → Bool)
    (maxPollAttempts : Nat) : Nat → Nat → Except String Unit × Nat
  | pollAttempts, 0 => (Except.error "out of fuel", pollAttempts)
  | pollAttempts, fuel + 1 =>
    if doneAt pollAttempts then (Except.ok (), pollAttempts)
    else if maxPollAttempts ≤ pollAttempts then
      (Except.error (timeoutMsg fileName maxPollAttempts), pollAttempts)
    else pollForCompletion fileName doneAt maxPollAttempts (pollAttempts + 1) fuel

def pollOperationLoop (fileName : String) (doneAt : Nat → Bool)
    (maxPollAttempts : Nat) : Except String Unit × Nat :=
  pollForCompletion fileName doneAt maxPollAttempts 0 (maxPollAttempts + 1)

/-- The body of the `try` block for one attempt: submit, then poll. -/
def attemptUpload (fileName : String) (submitResult : Nat → Except String Unit)
    (doneAt : Nat → Nat → Bool) (maxPollAttempts : Nat)
    (attempt : Nat) : Except String Unit :=
  match submitResult attempt with
  | Except.error e => Except.error e
  | Except.ok _ => (pollOperationLoop fileName (doneAt attempt) maxPollAttempts).1

instance {ε δ : Type} [DecidableEq ε] [DecidableEq δ] : DecidableEq (Except ε δ) := fun x y =>
  match x, y with
  | Except.ok a, Except.ok b =>
    if h : a = b then isTrue (h ▸ rfl)
    else isFalse (fun hc => h (Except.ok.inj hc))
  | Except.error a, Except.error b =>
    if h : a = b then isTrue (h ▸ rfl)
    else isFalse (fun hc => h (Except.error.inj hc))
  | Except.ok _, Except.error _ => isFalse (fun hc => Except.noConfusion hc)
  | Except.error _, Except.ok _ => isFalse (fun hc => Except.noConfusion hc)

structure RetryOutcome where
  result : Except String Unit
  backoffDelays : List Nat
  attemptsMade : Nat
deriving Repr, DecidableEq

/-- The `for (attempt = 0; attempt < maxRetries; attempt++)` retry loop:
on success return; on failure rethrow if this was the last attempt,
otherwise sleep `baseDelay * 2 ^ attempt` and try again.  The backoff
delays slept between consecutive attempts are recorded in order. -/
def retryLoop (fileName : String) (body : Nat → Except String Unit)
    (maxRetries baseDelay : Nat) : Nat → Nat → RetryOutcome
  | _, 0 => { result := Except.ok (), backoffDelays := [], attemptsMade := 0 }
  | attempt, fuel + 1 =>
    if attempt < maxRetries then
      match body attempt with
      | Except.ok _ =>
        { result := Except.ok (), backoffDelays := [], attemptsMade := 1 }
      | Except.error e =>
        if attempt = maxRetries - 1 then
          { result := Except.error (uploadFailedMsg fileName maxRetries e),
            backoffDelays := [], attemptsMade := 1 }
        else
          let retryDelay := baseDelay * 2 ^ attempt
          let rest := retryLoop fileName body maxRetries baseDelay (attempt + 1) fuel
          { result := rest.result, backoffDelays := retryDelay :: rest.backoffDelays,
            attemptsMade := rest.attemptsMade + 1 }
    else { result := Except.ok (), backoffDelays := [], attemptsMade := 0 }

def maxRetriesDefault : Nat := 5

def baseDelayDefault : Nat := 2000

def maxPollAttemptsDefault : Nat := 120

def uploadFileToRagStore (fileName : String)
    (submitResult : Nat → Except String Unit)
    (doneAt : Nat → Nat → Bool) : RetryOutcome :=
  retryLoop fileName
    (attemptUpload fileName submitResult doneAt maxPollAttemptsDefault)
    maxRetriesDefault baseDelayDefault 0 maxRetriesDefault

/-! ### Remote Store Directory and reconciliation -/

structure RagStore where
  name : String
  displayName : String
  activeDocumentsCount : Nat
deriving Repr, DecidableEq

/-- `matchingStores.reduce((best, current) => currentCount > bestCount ?
current : best)`: the first-encountered store with the greatest document
count. -/
def pickCanonical (best : RagStore) : List RagStore → RagStore
  | [] => best
  | current :: rest =>
    pickCanonical
      (if current.activeDocumentsCount > best.activeDocumentsCount then current else best)
      rest

def getRagStoreByDisplayName (stores : List RagStore)
    (displayName : String) : Option String :=
  match stores.filter (fun s => s.displayName == displayName) with
  | [] => none
  | b :: rest => some (pickCanonical b rest).name

structure RemoteState where
  stores : List RagStore
  nextId : Nat
deriving Repr, DecidableEq

/-- `createRagStore`: the remote service assigns a fresh opaque resource
name. -/
def createRagStore (displayName : String) (st : RemoteState) : String × RemoteState :=
  let name := "fileSearchStores/store-" ++ toString st.nextId
  (name,
    { stores := st.stores ++
        [{ name := name, displayName := displayName, activeDocumentsCount := 0 }],
      nextId := st.nextId + 1 })

/-- `deleteRagStore` (force): remove the remote store with the given
resource name and clear its upload-tracker entry. -/
def deleteRagStore (storeName : String) (st : RemoteState)
    (tracker : UploadTracker) : RemoteState × UploadTracker :=
  ({ st with stores := st.stores.filter (fun s => s.name != storeName) },
    clearUploadTracker tracker storeName)

/-- `getOrCreateRagStore`: no match creates a store (`isNew = true`);
exactly one match is returned as is; several matches keep the one with the
most documents and delete the other matching stores before returning it
(`isNew = false`). -/
def getOrCreateRagStore (displayName : String) (st : RemoteState)
    (tracker : UploadTracker) : (String × Bool) × RemoteState × UploadTracker :=
  match st.stores.filter (fun s => s.displayName == displayName) with
  | [] =>
    let created := createRagStore displayName st
    ((created.1, true), created.2, tracker)
  | [s] => ((s.name, false), st, tracker)
  | b :: c :: rest =>
    let storeToKeep := pickCanonical b (c :: rest)
    let storesToDelete := (b :: c :: rest).filter (fun s => s.name != storeToKeep.name)
    let final := storesToDelete.foldl
      (fun acc s => deleteRagStore s.name acc.1 acc.2) (st, tracker)
    ((storeToKeep.name, false), final.1, final.2)

structure CleanupResult where
  found : Nat
  deleted : Nat
  kept : Option String
  deletedStores : List String
deriving Repr, DecidableEq

/-- `cleanupDuplicateStores`: with at most one match, report and do
nothing; otherwise keep the canonical store and delete the rest. -/
def cleanupDuplicateStores (displayName : String) (st : RemoteState)
    (tracker : UploadTracker) : CleanupResult × RemoteState × UploadTracker :=
  match st.stores.filter (fun s => s.displayName == displayName) with
  | [] => ({ found := 0, deleted := 0, kept := none, deletedStores := [] }, st, tracker)
  | [s] => ({ found := 1, deleted := 0, kept := some s.name, deletedStores := [] }, st, tracker)
  | b :: c :: rest =>
    let matchingStores := b :: c :: rest
    let storeToKeep := pickCanonical b (c :: rest)
    let storesToDelete := matchingStores.filter (fun s => s.name != storeToKeep.name)
    let final := storesToDelete.foldl
      (fun acc s => deleteRagStore s.name acc.1 acc.2) (st, tracker)
    ({ found := matchingStores.length, deleted := storesToDelete.length,
       kept := some storeToKeep.name,
       deletedStores := storesToDelete.map (fun s => s.name) },
      final.1, final.2)

/-! ### Specification-side helpers used in the theorem statements -/

def oracleOk (oracle : String → Except String Unit) (f : String) : Bool :=
  match oracle f with
  | Except.ok _ => true
  | Except.error _ => false

def failureEntry (oracle : String → Except String Unit) (f : String) :
    Option (String × String) :=
  match oracle f with
  | Except.error e => some (f, e)
  | Except.ok _ => none

/-- The events the drive loop emits for one file, in order: the progress
callback, then the upload attempt, then (on success) the ledger write. -/
def perFileEvents (oracle : String → Except String Unit) (total i : Nat)
    (f : String) : List SyncEvent :=
  match oracle f with
  | Except.ok _ => [SyncEvent.progress (i+1) total f, SyncEvent.uploadAttempt f,
      SyncEvent.ledgerWrite f]
  | Except.error _ => [SyncEvent.progress (i+1) total f, SyncEvent.uploadAttempt f]

def traceOfRun (oracle : String → Except String Unit) (total : Nat) :
    List String → Nat → List SyncEvent
  | [], _ => []
  | f :: rest, i => perFileEvents oracle total i f ++ traceOfRun oracle total rest (i+1)

/-- Well-formedness of the tracker: no store's `uploadedFiles` holds a
filename twice. -/
def trackerWF (tracker : UploadTracker) : Prop :=
  ∀ k e, findEntry tracker k = some e → e.uploadedFiles.Nodup

/-- A sequence of `recordSuccess` calls, each `(now, storeId, fileName)`. -/
def runRecordSuccess (calls : List (String × String × String))
    (tracker : UploadTracker) : UploadTracker :=
  calls.foldl (fun acc c => addUploadedFile c.1 acc c.2.1 c.2.2) tracker

/-! ### Concrete scenario data -/

def demoStore1 : RagStore :=
  { name := "s1", displayName := "Docs", activeDocumentsCount := 5 }

def demoStore2 : RagStore :=
  { name := "s2", displayName := "Docs", activeDocumentsCount := 12 }

def demoStore3 : RagStore :=
  { name := "s3", displayName := "Docs", activeDocumentsCount := 3 }

def demoStores : List RagStore := [demoStore1, demoStore2, demoStore3]

def demoRemoteState : RemoteState := { stores := demoStores, nextId := 0 }

def demoBatchListing : List String :=
  ["d1.txt", "d2.txt", "d3.txt", "d4.txt", "d5.txt"]

def demoBatchOracle : String → Except String Unit := fun f =>
  if f = "d3.txt" then Except.error "boom" else Except.ok ()

def demoBatchResult : UploadResult :=
  { successful := ["d1.txt", "d2.txt", "d4.txt", "d5.txt"],
    failed := [("d3.txt", "boom")],
    skipped := [] }

def demoBatchTrace : List SyncEvent :=
  [SyncEvent.progress 1 5 "d1.txt", SyncEvent.uploadAttempt "d1.txt",
   SyncEvent.ledgerWrite "d1.txt", SyncEvent.progress 2 5 "d2.txt",
   SyncEvent.uploadAttempt "d2.txt", SyncEvent.ledgerWrite "d2.txt",
   SyncEvent.progress 3 5 "d3.txt", SyncEvent.uploadAttempt "d3.txt",
   SyncEvent.progress 4 5 "d4.txt", SyncEvent.uploadAttempt "d4.txt",
   SyncEvent.ledgerWrite "d4.txt", SyncEvent.progress 5 5 "d5.txt",
   SyncEvent.uploadAttempt "d5.txt", SyncEvent.ledgerWrite "d5.txt"]

def demoBatchOutcome : SyncOutcome :=
  { result := demoBatchResult,
    tracker := [("st", { uploadedFiles := ["d1.txt", "d2.txt", "d4.txt", "d5.txt"],
                         lastUpdate := "t0" })],
    filesToUpload := demoBatchListing,
    trace := demoBatchTrace }

def demoSingleTrace : List SyncEvent :=
  [SyncEvent.progress 1 1 "a.txt", SyncEvent.uploadAttempt "a.txt",
   SyncEvent.ledgerWrite "a.txt"]

def demoSingleOutcome : SyncOutcome :=
  { result := { successful := ["a.txt"], failed := [], skipped := [] },
    tracker := [("st", { uploadedFiles := ["a.txt"], lastUpdate := "t0" })],
    filesToUpload := ["a.txt"],
    trace := demoSingleTrace }

@[simp]
theorem dedupFirst_nil [DecidableEq α] : dedupFirst ([] : List α) = [] := by
  simp [dedupFirst]

theorem dedupFirst_cons [DecidableEq α] (a : α) (l : List α) :
    dedupFirst (a :: l) = a :: dedupFirst (l.filter (fun b => b != a)) := by
  simp [dedupFirst]

@[simp]
theorem mem_dedupFirst [DecidableEq α] {l : List α} {x : α} :
    x ∈ dedupFirst l ↔ x ∈ l := by
  induction l using dedupFirst.induct with
  | case1 => simp
  | case2 a t ih =>
    rw [dedupFirst_cons]
    simp only [List.mem_cons, ih, List.mem_filter, bne_iff_ne, ne_eq]
    constructor
    · rintro (rfl | ⟨h, _⟩)
      · exact Or.inl rfl
      · exact Or.inr h
    · rintro (rfl | h)
      · exact Or.inl rfl
      · by_cases hx : x = a
        · exact Or.inl hx
        · exact Or.inr ⟨h, hx⟩

theorem dedupFirst_nodup [DecidableEq α] (l : List α) : (dedupFirst l).Nodup := by
  induction l using dedupFirst.induct with
  | case1 => simp
  | case2 a t ih =>
    rw [dedupFirst_cons]
    refine List.nodup_cons.mpr ⟨?_, ih⟩
    intro hmem
    have := (mem_dedupFirst).mp hmem
    simp [List.mem_filter] at this

theorem dedupFirst_sublist [DecidableEq α] (l : List α) :
    (dedupFirst l).Sublist l := by
  induction l using dedupFirst.induct with
  | case1 => simp
  | case2 a t ih =>
    rw [dedupFirst_cons]
    exact List.Sublist.cons₂ a (ih.trans (List.filter_sublist t))

theorem indexOf_filter_le_iff [DecidableEq α] {p : α → Bool} (l : List α) :
    ∀ a b : α, a ∈ l → b ∈ l → p a = true → p b = true →
      (((l.filter p).indexOf a ≤ (l.filter p).indexOf b) ↔ l.indexOf a ≤ l.indexOf b) := by
  induction l with
  | nil => intro a b ha; simp at ha
  | cons y t ih =>
    intro a b ha hb hpa hpb
    by_cases hay : a = y
    · subst hay
      rw [List.filter_cons_of_pos hpa]
      simp [List.indexOf_cons_self]
    · by_cases hby : b = y
      · subst hby
        rw [List.filter_cons_of_pos hpb, List.indexOf_cons_self,
          List.indexOf_cons_self, List.indexOf_cons_ne _ (Ne.symm hay),
          List.indexOf_cons_ne _ (Ne.symm hay)]
        simp
      · have ha' : a ∈ t := by
          rcases List.mem_cons.mp ha with h | h
          · exact absurd h hay
          · exact h
        have hb' : b ∈ t := by
          rcases List.mem_cons.mp hb with h | h
          · exact absurd h hby
          · exact h
        rw [List.indexOf_cons_ne _ (Ne.symm hay), List.indexOf_cons_ne _ (Ne.symm hby),
          Nat.succ_le_succ_iff]
        by_cases hpy : p y = true
        · rw [List.filter_cons_of_pos hpy, List.indexOf_cons_ne _ (Ne.symm hay),
            List.indexOf_cons_ne _ (Ne.symm hby), Nat.succ_le_succ_iff]
          exact ih a b ha' hb' hpa hpb
        · rw [List.filter_cons_of_neg (by simpa using hpy)]
          exact ih a b ha' hb' hpa hpb

theorem dedupFirst_indexOf_le_iff [DecidableEq α] (l : List α) :
    ∀ a b : α, a ∈ l → b ∈ l →
      (((dedupFirst l).indexOf a ≤ (dedupFirst l).indexOf b) ↔
        l.indexOf a ≤ l.indexOf b) := by
  induction l using dedupFirst.induct with
  | case1 => intro a b ha; simp at ha
  | case2 x t ih =>
    intro a b ha hb
    rw [dedupFirst_cons]
    by_cases hax : a = x
    · subst hax
      simp [List.indexOf_cons_self]
    · by_cases hbx : b = x
      · subst hbx
        rw [List.indexOf_cons_self, List.indexOf_cons_self,
          List.indexOf_cons_ne _ (Ne.symm hax), List.indexOf_cons_ne _ (Ne.symm hax)]
        simp
      · have ha' : a ∈ t := by
          rcases List.mem_cons.mp ha with h | h
          · exact absurd h hax
          · exact h
        have hb' : b ∈ t := by
          rcases List.mem_cons.mp hb with h | h
          · exact absurd h hbx
          · exact h
        have haf : a ∈ t.filter (fun c => c != x) :=
          List.mem_filter.mpr ⟨ha', by simp [hax]⟩
        have hbf : b ∈ t.filter (fun c => c != x) :=
          List.mem_filter.mpr ⟨hb', by simp [hbx]⟩
        rw [List.indexOf_cons_ne _ (Ne.symm hax), List.indexOf_cons_ne _ (Ne.symm hbx),
          List.indexOf_cons_ne _ (Ne.symm hax), List.indexOf_cons_ne _ (Ne.symm hbx),
          Nat.succ_le_succ_iff, Nat.succ_le_succ_iff]
        rw [ih a b haf hbf]
        exact indexOf_filter_le_iff t a b ha' hb' (by simp [hax]) (by simp [hbx])

theorem dedupScanGo_fst [DecidableEq α] :
    ∀ (l seen dups : List α),
      (dedupScanGo seen dups l).1 =
        seen ++ dedupFirst (l.filter (fun f => decide (f ∉ seen))) := by
  intro l
  induction l with
  | nil => intro seen dups; simp [dedupScanGo]
  | cons f rest ih =>
    intro seen dups
    by_cases hf : f ∈ seen
    · rw [show dedupScanGo seen dups (f :: rest) = dedupScanGo seen (dups ++ [f]) rest by
        simp [dedupScanGo, hf]]
      rw [ih]
      congr 2
      simp [List.filter_cons, hf]
    · rw [show dedupScanGo seen dups (f :: rest) = dedupScanGo (seen ++ [f]) dups rest by
        simp [dedupScanGo, hf]]
      rw [ih]
      have hfilter : rest.filter (fun g => decide (g ∉ seen ++ [f])) =
          (rest.filter (fun g => decide (g ∉ seen))).filter (fun g => g != f) := by
        rw [List.filter_filter]
        apply List.filter_congr
        intro g _
        by_cases h1 : g = f <;> by_cases h2 : g ∈ seen <;> simp [h1, h2]
      rw [List.filter_cons_of_pos (by simp [hf]), dedupFirst_cons, hfilter]
      simp

theorem dedupScanGo_snd_mem [DecidableEq α] :
    ∀ (l seen dups : List α) (x : α),
      (x ∈ (dedupScanGo seen dups l).2 ↔
        x ∈ dups ∨ (x ∈ seen ∧ x ∈ l) ∨ 2 ≤ l.count x) := by
  intro l
  induction l with
  | nil => intro seen dups x; simp [dedupScanGo]
  | cons f rest ih =>
    intro seen dups x
    by_cases hf : f ∈ seen
    · rw [show dedupScanGo seen dups (f :: rest) = dedupScanGo seen (dups ++ [f]) rest by
        simp [dedupScanGo, hf]]
      rw [ih]
      by_cases hxf : x = f
      · subst hxf
        simp [hf]
      · simp [hxf, Ne.symm hxf, List.count_cons_of_ne hxf]
    · rw [show dedupScanGo seen dups (f :: rest) = dedupScanGo (seen ++ [f]) dups rest by
        simp [dedupScanGo, hf]]
      rw [ih]
      by_cases hxf : x = f
      · subst hxf
        have hc : (x :: rest).count x = rest.count x + 1 := List.count_cons_self x rest
        simp only [List.mem_append, List.mem_singleton, List.mem_cons, hc]
        constructor
        · rintro (h | ⟨h1 | h1, h2⟩ | h)
          · exact Or.inl h
          · exact absurd h1 hf
          · have : 0 < rest.count x := List.count_pos_iff.mpr h2
            exact Or.inr (Or.inr (by omega))
          · exact Or.inr (Or.inr (by omega))
        · rintro (h | ⟨h1, _⟩ | h)
          · exact Or.inl h
          · exact absurd h1 hf
          · have : 0 < rest.count x := by omega
            exact Or.inr (Or.inl ⟨by simp, List.count_pos_iff.mp this⟩)
      · simp [hxf, Ne.symm hxf, List.count_cons_of_ne hxf]

theorem dedupScan_fst [DecidableEq α] (files : List α) :
    (dedupScan files).1 = dedupFirst files := by
  rw [dedupScan, dedupScanGo_fst]
  simp

theorem dedupScan_snd_mem [DecidableEq α] (files : List α) (x : α) :
    x ∈ (dedupScan files).2 ↔ 2 ≤ files.count x := by
  rw [dedupScan, dedupScanGo_snd_mem]
  simp

/-! ### Tracker lemmas -/

theorem findEntry_setEntry_self :
    ∀ (t : UploadTracker) (k : String) (v : TrackerEntry),
      findEntry (setEntry t k v) k = some v := by
  intro t
  induction t with
  | nil => intro k v; simp [setEntry, findEntry]
  | cons p t ih =>
    intro k v
    by_cases h : p.1 = k
    · simp [setEntry, h, findEntry]
    · have hb : (p.1 == k) = false := by simp [h]
      simp only [setEntry]
      rw [show ((p.1 : String) == k) = false from hb]
      simp only [Bool.false_eq_true, if_false, findEntry, List.find?]
      rw [hb]
      exact ih k v

theorem findEntry_setEntry_ne :
    ∀ (t : UploadTracker) (k k' : String) (v : TrackerEntry), k' ≠ k →
      findEntry (setEntry t k v) k' = findEntry t k' := by
  intro t
  induction t with
  | nil =>
    intro k k' v h
    simp [setEntry, findEntry, List.find?, show (k == k') = false by simp [Ne.symm h]]
  | cons p t ih =>
    intro k k' v h
    by_cases hp : p.1 = k
    · simp only [setEntry]
      rw [show ((p.1 : String) == k) = true by simp [hp]]
      simp only [if_true, findEntry, List.find?]
      rw [show ((k : String) == k') = false by simp [Ne.symm h],
        show ((p.1 : String) == k') = false by simp [hp, Ne.symm h]]
    · simp only [setEntry]
      rw [show ((p.1 : String) == k) = false by simp [hp]]
      simp only [Bool.false_eq_true, if_false, findEntry, List.find?]
      by_cases hk : p.1 = k'
      · rw [show ((p.1 : String) == k') = true by simp [hk]]
      · rw [show ((p.1 : String) == k') = false by simp [hk]]
        exact ih k k' v h

theorem addUploadedFile_mem_noop (now : String) (t : UploadTracker)
    (store file : String) (e : TrackerEntry)
    (h1 : findEntry t store = some e) (h2 : file ∈ e.uploadedFiles) :
    addUploadedFile now t store file = t := by
  simp [addUploadedFile, h1, h2]

theorem addUploadedFile_WF (now : String) (t : UploadTracker)
    (store file : String) (h : trackerWF t) :
    trackerWF (addUploadedFile now t store file) := by
  by_cases hmem :
    file ∈ ((findEntry t store).getD
      { uploadedFiles := [], lastUpdate := now }).uploadedFiles
  · rw [show addUploadedFile now t store file = t by simp [addUploadedFile, hmem]]
    exact h
  · rw [show addUploadedFile now t store file =
        setEntry t store
          { uploadedFiles :=
              ((findEntry t store).getD
                { uploadedFiles := [], lastUpdate := now }).uploadedFiles ++ [file],
            lastUpdate := now } by
      simp [addUploadedFile, hmem]]
    intro k e hk
    by_cases hks : k = store
    · subst hks
      rw [findEntry_setEntry_self] at hk
      cases hk
      have hnd : ((findEntry t k).getD
          { uploadedFiles := [], lastUpdate := now }).uploadedFiles.Nodup := by
        cases hfind : findEntry t k with
        | none => simp
        | some e0 => simpa using h k e0 hfind
      simp only [List.nodup_append, List.nodup_cons, List.nodup_nil]
      refine ⟨hnd, by simp, ?_⟩
      intro a ha hb
      rw [List.mem_singleton] at hb
      subst hb
      exact hmem ha
    · rw [findEntry_setEntry_ne t store k _ hks] at hk
      exact h k e hk

theorem runRecordSuccess_WF :
    ∀ (calls : List (String × String × String)) (t : UploadTracker),
      trackerWF t → trackerWF (runRecordSuccess calls t) := by
  intro calls
  induction calls with
  | nil => intro t h; exact h
  | cons c rest ih =>
    intro t h
    exact ih _ (addUploadedFile_WF c.1 t c.2.1 c.2.2 h)

theorem listDocuments_fst (now : String) (t : UploadTracker) (store : String) :
    (listDocumentsInRagStore now t store).1 =
      dedupFirst (((findEntry t store).map (fun e => e.uploadedFiles)).getD []) := by
  simp only [listDocumentsInRagStore]
  split <;> rfl

theorem listDocuments_heals (now : String) (t : UploadTracker) (store : String)
    (e : TrackerEntry) (h : findEntry t store = some e) :
    ∃ e', findEntry (listDocumentsInRagStore now t store).2 store = some e' ∧
      e'.uploadedFiles = dedupFirst e.uploadedFiles := by
  simp only [listDocumentsInRagStore, h, Option.map_some', Option.getD_some]
  split
  · exact ⟨_, findEntry_setEntry_self t store _, rfl⟩
  · rename_i hlen
    refine ⟨e, h, ?_⟩
    have hsub := dedupFirst_sublist e.uploadedFiles
    exact (hsub.eq_of_length (not_ne_iff.mp hlen)).symm

/-! ### Drive loop lemmas -/

theorem driveLoop_spec (ragStoreName now : String)
    (oracle : String → Except String Unit) (total : Nat) :
    ∀ (files : List String) (i : Nat) (s : DriveState), files.Nodup →
      (∀ f ∈ files, f ∉ s.uploadedInSession) →
      ((driveLoop ragStoreName oracle now total files i s).successful =
          s.successful ++ files.filter (oracleOk oracle) ∧
        (driveLoop ragStoreName oracle now total files i s).failed =
          s.failed ++ files.filterMap (failureEntry oracle) ∧
        (driveLoop ragStoreName oracle now total files i s).skipped = s.skipped ∧
        (driveLoop ragStoreName oracle now total files i s).uploadedInSession =
          s.uploadedInSession ++ files.filter (oracleOk oracle) ∧
        (driveLoop ragStoreName oracle now total files i s).trace =
          s.trace ++ traceOfRun oracle total files i) := by
  intro files
  induction files with
  | nil =>
    intro i s _ _
    simp [driveLoop, traceOfRun]
  | cons f rest ih =>
    intro i s hnd hses
    have hf : f ∉ s.uploadedInSession := hses f (List.mem_cons_self f rest)
    have hndr : rest.Nodup := (List.nodup_cons.mp hnd).2
    have hfr : f ∉ rest := (List.nodup_cons.mp hnd).1
    rw [show driveLoop ragStoreName oracle now total (f :: rest) i s =
      driveLoop ragStoreName oracle now total rest (i+1)
        (driveStep ragStoreName oracle now total i f s) from rfl]
    cases horacle : oracle f with
    | ok u =>
      have hok : oracleOk oracle f = true := by simp [oracleOk, horacle]
      have hfe : failureEntry oracle f = none := by simp [failureEntry, horacle]
      have hstep : driveStep ragStoreName oracle now total i f s =
          { s with
            trace := s.trace ++ [SyncEvent.progress (i+1) total f,
              SyncEvent.uploadAttempt f, SyncEvent.ledgerWrite f],
            tracker := addUploadedFile now s.tracker ragStoreName f,
            uploadedInSession := s.uploadedInSession ++ [f],
            successful := s.successful ++ [f] } := by
        simp [driveStep, hf, horacle]
      have hses' : ∀ g ∈ rest,
          g ∉ (driveStep ragStoreName oracle now total i f s).uploadedInSession := by
        intro g hg
        rw [hstep]
        simp only [List.mem_append, List.mem_singleton]
        rintro (hgs | rfl)
        · exact hses g (List.mem_cons_of_mem f hg) hgs
        · exact hfr hg
      obtain ⟨h1, h2, h3, h4, h5⟩ := ih (i+1) _ hndr hses'
      refine ⟨?_, ?_, ?_, ?_, ?_⟩
      · rw [h1, hstep]
        simp [List.filter_cons, hok, List.append_assoc]
      · rw [h2, hstep]
        simp [List.filterMap_cons, hfe]
      · rw [h3, hstep]
      · rw [h4, hstep]
        simp [List.filter_cons, hok, List.append_assoc]
      · rw [h5, hstep]
        rw [show traceOfRun oracle total (f :: rest) i =
          perFileEvents oracle total i f ++ traceOfRun oracle total rest (i+1) from rfl]
        simp [perFileEvents, horacle, List.append_assoc]
    | error e =>
      have hok : oracleOk oracle f = false := by simp [oracleOk, horacle]
      have hfe : failureEntry oracle f = some (f, e) := by simp [failureEntry, horacle]
      have hstep : driveStep ragStoreName oracle now total i f s =
          { s with
            trace := s.trace ++ [SyncEvent.progress (i+1) total f,
              SyncEvent.uploadAttempt f],
            failed := s.failed ++ [(f, e)] } := by
        simp [driveStep, hf, horacle]
      have hses' : ∀ g ∈ rest,
          g ∉ (driveStep ragStoreName oracle now total i f s).uploadedInSession := by
        intro g hg
        rw [hstep]
        exact hses g (List.mem_cons_of_mem f hg)
      obtain ⟨h1, h2, h3, h4, h5⟩ := ih (i+1) _ hndr hses'
      refine ⟨?_, ?_, ?_, ?_, ?_⟩
      · rw [h1, hstep]
        simp [List.filter_cons, hok]
      · rw [h2, hstep]
        simp [List.filterMap_cons, hfe, List.append_assoc]
      · rw [h3, hstep]
      · rw [h4, hstep]
        simp [List.filter_cons, hok]
      · rw [h5, hstep]
        rw [show traceOfRun oracle total (f :: rest) i =
          perFileEvents oracle total i f ++ traceOfRun oracle total rest (i+1) from rfl]
        simp [perFileEvents, horacle, List.append_assoc]

/-! ### Uploader lemmas -/

theorem retryLoop_zero (fileName : String) (body : Nat → Except String Unit)
    (maxRetries baseDelay attempt : Nat) :
    retryLoop fileName body maxRetries baseDelay attempt 0 =
      { result := Except.ok (), backoffDelays := [], attemptsMade := 0 } := rfl

theorem retryLoop_succ (fileName : String) (body : Nat → Except String Unit)
    (maxRetries baseDelay attempt fuel : Nat) :
    retryLoop fileName body maxRetries baseDelay attempt (fuel + 1) =
      (if attempt < maxRetries then
        match body attempt with
        | Except.ok _ =>
          { result := Except.ok (), backoffDelays := [], attemptsMade := 1 }
        | Except.error e =>
          if attempt = maxRetries - 1 then
            { result := Except.error (uploadFailedMsg fileName maxRetries e),
              backoffDelays := [], attemptsMade := 1 }
          else
            let retryDelay := baseDelay * 2 ^ attempt
            let rest := retryLoop fileName body maxRetries baseDelay (attempt + 1) fuel
            { result := rest.result, backoffDelays := retryDelay :: rest.backoffDelays,
              attemptsMade := rest.attemptsMade + 1 }
      else { result := Except.ok (), backoffDelays := [], attemptsMade := 0 }) := rfl

theorem retryLoop_allFail (fileName : String) (body : Nat → Except String Unit)
    (errs : Nat → String) (maxRetries baseDelay : Nat)
    (hb : ∀ a, body a = Except.error (errs a)) :
    ∀ (k attempt : Nat), 1 ≤ k → attempt + k = maxRetries →
      retryLoop fileName body maxRetries baseDelay attempt k =
        { result := Except.error
            (uploadFailedMsg fileName maxRetries (errs (maxRetries - 1))),
          backoffDelays := (List.range (k - 1)).map
            (fun j => baseDelay * 2 ^ (attempt + j)),
          attemptsMade := k } := by
  intro k
  induction k with
  | zero => intro a h1 h2; omega
  | succ k ih =>
    intro a h1 h2
    rw [retryLoop_succ, hb a]
    have ha : a < maxRetries := by omega
    rw [if_pos ha]
    by_cases hk : k = 0
    · subst hk
      have hlast : a = maxRetries - 1 := by omega
      simp [hlast]
    · have hne : a ≠ maxRetries - 1 := by omega
      have hrest := ih (a + 1) (by omega) (by omega)
      have hrange : (List.range k).map (fun j => baseDelay * 2 ^ (a + j)) =
          baseDelay * 2 ^ a ::
            (List.range (k - 1)).map (fun j => baseDelay * 2 ^ (a + 1 + j)) := by
        have hk1 : k = (k - 1) + 1 := by omega
        rw [show (List.range k).map (fun j => baseDelay * 2 ^ (a + j)) =
          (List.range ((k - 1) + 1)).map (fun j => baseDelay * 2 ^ (a + j)) by rw [← hk1],
          List.range_succ_eq_map, List.map_cons, List.map_map]
        have hfun : ((fun j => baseDelay * 2 ^ (a + j)) ∘ Nat.succ) =
            (fun j => baseDelay * 2 ^ (a + 1 + j)) := by
          funext j
          have hj : a + Nat.succ j = a + 1 + j := by omega
          simp [Function.comp, hj]
        rw [hfun]
        simp
      simp [hne, hrest, hrange]

theorem pollForCompletion_zero (fileName : String) (doneAt : Nat → Bool)
    (maxPollAttempts pollAttempts : Nat) :
    pollForCompletion fileName doneAt maxPollAttempts pollAttempts 0 =
      (Except.error "out of fuel", pollAttempts) := rfl

theorem pollForCompletion_succ (fileName : String) (doneAt : Nat → Bool)
    (maxPollAttempts pollAttempts fuel : Nat) :
    pollForCompletion fileName doneAt maxPollAttempts pollAttempts (fuel + 1) =
      (if doneAt pollAttempts then (Except.ok (), pollAttempts)
      else if maxPollAttempts ≤ pollAttempts then
        (Except.error (timeoutMsg fileName maxPollAttempts), pollAttempts)
      else pollForCompletion fileName doneAt maxPollAttempts (pollAttempts + 1) fuel) := rfl

theorem pollForCompletion_timeout (fileName : String) (doneAt : Nat → Bool)
    (maxPollAttempts : Nat) (h : ∀ n, doneAt n = false) :
    ∀ (fuel pollAttempts : Nat), pollAttempts ≤ maxPollAttempts →
      maxPollAttempts < pollAttempts + fuel →
      pollForCompletion fileName doneAt maxPollAttempts pollAttempts fuel =
        (Except.error (timeoutMsg fileName maxPollAttempts), maxPollAttempts) := by
  intro fuel
  induction fuel with
  | zero => intro p h1 h2; omega
  | succ fuel ih =>
    intro p h1 h2
    rw [pollForCompletion_succ, h p]
    simp only [Bool.false_eq_true, if_false]
    by_cases hp : maxPollAttempts ≤ p
    · have hpe : p = maxPollAttempts := Nat.le_antisymm h1 hp
      rw [if_pos hp, hpe]
    · rw [if_neg hp]
      exact ih (p + 1) (by omega) (by omega)

theorem pollOperationLoop_timeout (fileName : String) (doneAt : Nat → Bool)
    (maxPollAttempts : Nat) (h : ∀ n, doneAt n = false) :
    pollOperationLoop fileName doneAt maxPollAttempts =
      (Except.error (timeoutMsg fileName maxPollAttempts), maxPollAttempts) :=
  pollForCompletion_timeout fileName doneAt maxPollAttempts h
    (maxPollAttempts + 1) 0 (by omega) (by omega)

theorem pollOperationLoop_done0 (fileName : String) (doneAt : Nat → Bool)
    (maxPollAttempts : Nat) (h : doneAt 0 = true) :
    pollOperationLoop fileName doneAt maxPollAttempts = (Except.ok (), 0) := by
  rw [pollOperationLoop, pollForCompletion_succ, h]
  simp

theorem attemptUpload_submit_error (fileName : String)
    (submitResult : Nat → Except String Unit) (doneAt : Nat → Nat → Bool)
    (maxPollAttempts attempt : Nat) (e : String)
    (h : submitResult attempt = Except.error e) :
    attemptUpload fileName submitResult doneAt maxPollAttempts attempt =
      Except.error e := by
  simp [attemptUpload, h]

theorem attemptUpload_submit_ok (fileName : String)
    (submitResult : Nat → Except String Unit) (doneAt : Nat → Nat → Bool)
    (maxPollAttempts attempt : Nat)
    (h : submitResult attempt = Except.ok ()) :
    attemptUpload fileName submitResult doneAt maxPollAttempts attempt =
      (pollOperationLoop fileName (doneAt attempt) maxPollAttempts).1 := by
  simp [attemptUpload, h]

/-! ### Remote store directory lemmas -/

theorem pickCanonical_nil (b : RagStore) : pickCanonical b [] = b := rfl

theorem pickCanonical_cons (b c : RagStore) (rest : List RagStore) :
    pickCanonical b (c :: rest) =
      pickCanonical
        (if c.activeDocumentsCount > b.activeDocumentsCount then c else b) rest := rfl

theorem pickCanonical_split :
    ∀ (rest : List RagStore) (b : RagStore),
      ∃ l₁ l₂, b :: rest = l₁ ++ pickCanonical b rest :: l₂ ∧
        (∀ s ∈ b :: rest,
          s.activeDocumentsCount ≤ (pickCanonical b rest).activeDocumentsCount) ∧
        (∀ s ∈ l₁,
          s.activeDocumentsCount < (pickCanonical b rest).activeDocumentsCount) := by
  intro rest
  induction rest with
  | nil =>
    intro b
    exact ⟨[], [], rfl, by simp [pickCanonical_nil], by simp⟩
  | cons c rest ih =>
    intro b
    by_cases hcb : b.activeDocumentsCount < c.activeDocumentsCount
    · have hpick : pickCanonical b (c :: rest) = pickCanonical c rest := by
        rw [pickCanonical_cons, if_pos hcb]
      obtain ⟨l₁, l₂, heq, hmax, hlt⟩ := ih c
      refine ⟨b :: l₁, l₂, ?_, ?_, ?_⟩
      · rw [hpick, List.cons_append, ← heq]
      · intro s hs
        rw [hpick]
        rcases List.mem_cons.mp hs with rfl | hs'
        · exact le_of_lt (lt_of_lt_of_le hcb (hmax c (List.mem_cons_self c rest)))
        · exact hmax s hs'
      · intro s hs
        rw [hpick]
        rcases List.mem_cons.mp hs with rfl | hs'
        · exact lt_of_lt_of_le hcb (hmax c (List.mem_cons_self c rest))
        · exact hlt s hs'
    · have hpick : pickCanonical b (c :: rest) = pickCanonical b rest := by
        rw [pickCanonical_cons, if_neg hcb]
      obtain ⟨l₁, l₂, heq, hmax, hlt⟩ := ih b
      cases l₁ with
      | nil =>
        have hpb : pickCanonical b rest = b := by
          rw [List.nil_append] at heq
          exact ((List.cons.inj heq).1).symm
        refine ⟨[], c :: rest, ?_, ?_, by simp⟩
        · simp [hpick, hpb]
        · intro s hs
          rw [hpick, hpb]
          rcases List.mem_cons.mp hs with rfl | hs'
          · exact le_refl _
          · rcases List.mem_cons.mp hs' with rfl | hs''
            · exact Nat.le_of_not_lt hcb
            · exact hpb ▸ (hmax s (List.mem_cons_of_mem b hs''))
      | cons x l₁' =>
        have hx : x = b ∧ rest = l₁' ++ pickCanonical b rest :: l₂ := by
          rw [List.cons_append] at heq
          exact ⟨(List.cons.inj heq).1.symm, (List.cons.inj heq).2⟩
        refine ⟨b :: c :: l₁', l₂, ?_, ?_, ?_⟩
        · rw [hpick, List.cons_append, List.cons_append]
          exact congrArg (fun l => b :: c :: l) hx.2
        · intro s hs
          rw [hpick]
          rcases List.mem_cons.mp hs with rfl | hs'
          · exact hmax s (List.mem_cons_self s rest)
          · rcases List.mem_cons.mp hs' with rfl | hs''
            · exact le_trans (Nat.le_of_not_lt hcb) (hmax b (List.mem_cons_self b rest))
            · exact hmax s (List.mem_cons_of_mem b hs'')
        · intro s hs
          rw [hpick]
          have hblt : b.activeDocumentsCount < (pickCanonical b rest).activeDocumentsCount := by
            have := hlt x (List.mem_cons_self x l₁')
            rw [hx.1] at this
            exact this
          rcases List.mem_cons.mp hs with rfl | hs'
          · exact hblt
          · rcases List.mem_cons.mp hs' with rfl | hs''
            · exact lt_of_le_of_lt (Nat.le_of_not_lt hcb) hblt
            · exact hlt s (List.mem_cons_of_mem x hs'')

theorem foldl_delete_stores :
    ∀ (delList : List RagStore) (st : RemoteState) (tracker : UploadTracker),
      ((delList.foldl (fun acc s => deleteRagStore s.name acc.1 acc.2)
          (st, tracker)).1).stores =
        st.stores.filter (fun t => delList.all (fun s => t.name != s.name)) := by
  intro delList
  induction delList with
  | nil => intro st tracker; simp
  | cons d delList ih =>
    intro st tracker
    rw [List.foldl_cons]
    rw [show deleteRagStore d.name st tracker =
      ({ st with stores := st.stores.filter (fun s => s.name != d.name) },
        clearUploadTracker tracker d.name) from rfl]
    rw [ih, List.filter_filter]
    apply List.filter_congr
    intro t _
    simp [List.all_cons, Bool.and_comm]

theorem filter_eq_singleton_of_unique {γ : Type} :
    ∀ (l : List γ) (p : γ → Bool) (a : γ), l.Nodup → a ∈ l → p a = true →
      (∀ b ∈ l, p b = true → b = a) → l.filter p = [a] := by
  intro l
  induction l with
  | nil => intro p a _ ha; simp at ha
  | cons x t ih =>
    intro p a hnd ha hpa huniq
    by_cases hxa : x = a
    · subst hxa
      rw [List.filter_cons_of_pos hpa]
      have hnone : t.filter p = [] := by
        rw [List.filter_eq_nil_iff]
        intro b hb hpb
        have hba : b = x := huniq b (List.mem_cons_of_mem x hb) hpb
        subst hba
        exact (List.nodup_cons.mp hnd).1 hb
      rw [hnone]
    · have hpx : p x = false := by
        cases hb : p x with
        | false => rfl
        | true => exact absurd (huniq x (List.mem_cons_self x t) hb) hxa
      rw [List.filter_cons_of_neg (by simp [hpx])]
      have ha' : a ∈ t := by
        rcases List.mem_cons.mp ha with h | h
        · exact absurd h.symm hxa
        · exact h
      exact ih p a (List.nodup_cons.mp hnd).2 ha' hpa
        (fun b hb hpb => huniq b (List.mem_cons_of_mem x hb) hpb)

theorem name_inj_of_nodup (stores : List RagStore)
    (h : (stores.map (fun s => s.name)).Nodup) :
    ∀ s ∈ stores, ∀ t ∈ stores, s.name = t.name → s = t := by
  intro s hs t ht heq
  exact List.inj_on_of_nodup_map h hs ht heq

/-! ### Corpus Differ lemmas -/

theorem corpusDiffer_false (files ledger : List String) :
    corpusDiffer files ledger false =
      ((dedupScan files).1, (dedupScan files).2, []) := rfl

theorem corpusDiffer_true (files ledger : List String) :
    corpusDiffer files ledger true =
      ((dedupScan files).1.filter (fun f => !(ledger.contains f)),
       (dedupScan files).2,
       (dedupScan files).1.filter (fun f => ledger.contains f)) := rfl

theorem contains_iff_mem (l : List String) (a : String) :
    l.contains a = true ↔ a ∈ l := List.elem_iff

theorem corpusDiffer_fst_nodup (files ledger : List String) (resume : Bool) :
    (corpusDiffer files ledger resume).1.Nodup := by
  cases resume
  · rw [corpusDiffer_false]
    rw [dedupScan_fst]
    exact dedupFirst_nodup files
  · rw [corpusDiffer_true]
    rw [dedupScan_fst]
    exact (dedupFirst_nodup files).filter _

theorem corpusDiffer_fst_sublist (files ledger : List String) (resume : Bool) :
    (corpusDiffer files ledger resume).1.Sublist files := by
  cases resume
  · rw [corpusDiffer_false, dedupScan_fst]
    exact dedupFirst_sublist files
  · rw [corpusDiffer_true, dedupScan_fst]
    exact (List.filter_sublist _).trans (dedupFirst_sublist files)

theorem corpusDiffer_fst_mem (files ledger : List String) (resume : Bool) (f : String) :
    f ∈ (corpusDiffer files ledger resume).1 ↔
      f ∈ files ∧ (resume = true → f ∉ ledger) := by
  cases resume
  · rw [corpusDiffer_false, dedupScan_fst]
    simp
  · rw [corpusDiffer_true, dedupScan_fst]
    simp only [List.mem_filter, mem_dedupFirst, Bool.not_eq_true']
    constructor
    · rintro ⟨h1, h2⟩
      refine ⟨h1, fun _ => ?_⟩
      intro hmem
      rw [(contains_iff_mem ledger f).mpr hmem] at h2
      cases h2
    · rintro ⟨h1, h2⟩
      refine ⟨h1, ?_⟩
      cases hc : ledger.contains f with
      | false => rfl
      | true => exact absurd ((contains_iff_mem ledger f).mp hc) (h2 trivial)

theorem corpusDiffer_dups_mem (files ledger : List String) (resume : Bool) (f : String) :
    f ∈ (corpusDiffer files ledger resume).2.1 ↔ 2 ≤ files.count f := by
  cases resume
  · rw [corpusDiffer_false]
    exact dedupScan_snd_mem files f
  · rw [corpusDiffer_true]
    exact dedupScan_snd_mem files f

theorem corpusDiffer_already_mem (files ledger : List String) (resume : Bool)
    (f : String) :
    f ∈ (corpusDiffer files ledger resume).2.2 ↔
      resume = true ∧ f ∈ files ∧ f ∈ ledger := by
  cases resume
  · rw [corpusDiffer_false]
    simp
  · rw [corpusDiffer_true, dedupScan_fst]
    simp only [List.mem_filter, mem_dedupFirst]
    constructor
    · rintro ⟨h1, h2⟩
      exact ⟨trivial, h1, (contains_iff_mem ledger f).mp h2⟩
    · rintro ⟨-, h1, h2⟩
      exact ⟨h1, (contains_iff_mem ledger f).mpr h2⟩

theorem corpusDiffer_fst_order (files ledger : List String) (resume : Bool)
    (a b : String) (ha : a ∈ (corpusDiffer files ledger resume).1)
    (hb : b ∈ (corpusDiffer files ledger resume).1) :
    ((corpusDiffer files ledger resume).1.indexOf a ≤
       (corpusDiffer files ledger resume).1.indexOf b ↔
     files.indexOf a ≤ files.indexOf b) := by
  cases resume
  · rw [corpusDiffer_false, dedupScan_fst] at ha hb ⊢
    exact dedupFirst_indexOf_le_iff files a b
      (mem_dedupFirst.mp ha) (mem_dedupFirst.mp hb)
  · rw [corpusDiffer_true, dedupScan_fst] at ha hb ⊢
    have ha' := List.mem_filter.mp ha
    have hb' := List.mem_filter.mp hb
    rw [indexOf_filter_le_iff (dedupFirst files) a b ha'.1 hb'.1 ha'.2 hb'.2]
    exact dedupFirst_indexOf_le_iff files a b
      (mem_dedupFirst.mp ha'.1) (mem_dedupFirst.mp hb'.1)

/-! ### Trace lemmas -/

theorem traceOfRun_cons (oracle : String → Except String Unit) (total : Nat)
    (f : String) (rest : List String) (i : Nat) :
    traceOfRun oracle total (f :: rest) i =
      perFileEvents oracle total i f ++ traceOfRun oracle total rest (i + 1) := rfl

theorem sessionSkip_not_mem_traceOfRun (oracle : String → Except String Unit)
    (total : Nat) :
    ∀ (files : List String) (i : Nat) (f : String),
      SyncEvent.sessionSkip f ∉ traceOfRun oracle total files i := by
  intro files
  induction files with
  | nil => intro i f h; simp [traceOfRun] at h
  | cons g rest ih =>
    intro i f h
    rw [traceOfRun_cons] at h
    rcases List.mem_append.mp h with h' | h'
    · cases horacle : oracle g with
      | ok u => simp [perFileEvents, horacle] at h'
      | error e => simp [perFileEvents, horacle] at h'
    · exact ih (i + 1) f h'

theorem uploadAttempt_mem_traceOfRun (oracle : String → Except String Unit)
    (total : Nat) :
    ∀ (files : List String) (i : Nat) (f : String), f ∈ files →
      SyncEvent.uploadAttempt f ∈ traceOfRun oracle total files i := by
  intro files
  induction files with
  | nil => intro i f h; simp at h
  | cons g rest ih =>
    intro i f h
    rw [traceOfRun_cons]
    rcases List.mem_cons.mp h with rfl | h'
    · apply List.mem_append.mpr (Or.inl _)
      cases horacle : oracle f with
      | ok u => simp [perFileEvents, horacle]
      | error e => simp [perFileEvents, horacle]
    · exact List.mem_append.mpr (Or.inr (ih (i + 1) f h'))

theorem traceOfRun_block (oracle : String → Except String Unit) (total : Nat) :
    ∀ (files : List String) (i j : Nat) (f : String), files[j]? = some f →
      ∃ pre post, traceOfRun oracle total files i =
        pre ++ perFileEvents oracle total (i + j) f ++ post := by
  intro files
  induction files with
  | nil => intro i j f h; simp at h
  | cons g rest ih =>
    intro i j f h
    cases j with
    | zero =>
      rw [List.getElem?_cons_zero] at h
      cases h
      exact ⟨[], traceOfRun oracle total rest (i + 1), by
        rw [traceOfRun_cons]
        simp⟩
    | succ j =>
      rw [List.getElem?_cons_succ] at h
      obtain ⟨pre, post, hsplit⟩ := ih (i + 1) j f h
      refine ⟨perFileEvents oracle total i g ++ pre, post, ?_⟩
      rw [traceOfRun_cons, hsplit]
      rw [show i + 1 + j = i + (j + 1) by omega]
      simp [List.append_assoc]

theorem filter_filterMap_length (oracle : String → Except String Unit) :
    ∀ (l : List String),
      (l.filter (oracleOk oracle)).length +
        (l.filterMap (failureEntry oracle)).length = l.length := by
  intro l
  induction l with
  | nil => simp
  | cons f rest ih =>
    cases ho : oracle f with
    | ok u =>
      rw [List.filter_cons, List.filterMap_cons]
      simp only [oracleOk, failureEntry, ho]
      simp only [if_true]
      simp only [List.length_cons]
      omega
    | error e =>
      rw [List.filter_cons, List.filterMap_cons]
      simp only [oracleOk, failureEntry, ho]
      simp only [Bool.false_eq_true, if_false, List.length_cons]
      omega

/-! ### Orchestrator lemmas -/

theorem diffPhase_fst_nodup (ragStoreName : String) (allFilesArray : List String)
    (tracker : UploadTracker) (resumeMode : Bool) (now : String) :
    (diffPhase ragStoreName allFilesArray tracker resumeMode now).1.1.Nodup := by
  rw [diffPhase]
  split
  · exact corpusDiffer_fst_nodup _ _ _
  · exact corpusDiffer_fst_nodup _ _ _

theorem drivePhase_spec (ragStoreName : String)
    (oracle : String → Except String Unit) (now : String)
    (filesToUpload : List String) (tracker1 : UploadTracker)
    (initialSkipped : List String) (h : filesToUpload.Nodup) :
    ((drivePhase ragStoreName oracle now filesToUpload tracker1
        initialSkipped).successful = filesToUpload.filter (oracleOk oracle) ∧
      (drivePhase ragStoreName oracle now filesToUpload tracker1
        initialSkipped).failed = filesToUpload.filterMap (failureEntry oracle) ∧
      (drivePhase ragStoreName oracle now filesToUpload tracker1
        initialSkipped).skipped = initialSkipped ∧
      (drivePhase ragStoreName oracle now filesToUpload tracker1
        initialSkipped).trace =
        traceOfRun oracle filesToUpload.length filesToUpload 0) := by
  obtain ⟨h1, h2, h3, h4, h5⟩ :=
    driveLoop_spec ragStoreName now oracle filesToUpload.length filesToUpload 0
      { tracker := tracker1, uploadedInSession := [], successful := [], failed := [],
        skipped := initialSkipped, trace := [] }
      h (fun f _ => List.not_mem_nil f)
  refine ⟨?_, ?_, ?_, ?_⟩
  · rw [drivePhase, h1]
    simp
  · rw [drivePhase, h2]
    simp
  · rw [drivePhase, h3]
  · rw [drivePhase, h5]
    simp

theorem uploadDirectory_ok_spec (ragStoreName : String) (listing : List String)
    (tracker : UploadTracker) (oracle : String → Except String Unit)
    (resumeMode : Bool) (now : String) (out : SyncOutcome)
    (heq : uploadDirectoryToRagStore ragStoreName listing tracker oracle
      resumeMode now = Except.ok out) :
    (out.filesToUpload.Nodup ∧
      out.result.successful = out.filesToUpload.filter (oracleOk oracle) ∧
      out.result.failed = out.filesToUpload.filterMap (failureEntry oracle) ∧
      out.trace = traceOfRun oracle out.filesToUpload.length out.filesToUpload 0) := by
  rw [uploadDirectoryToRagStore] at heq
  by_cases hempty : (listing.filter isSupportedFile).isEmpty
  · rw [if_pos hempty] at heq
    exact Except.noConfusion heq
  · rw [if_neg hempty] at heq
    have hout := (Except.ok.inj heq).symm
    have hnd := diffPhase_fst_nodup ragStoreName (listing.filter isSupportedFile)
      tracker resumeMode now
    obtain ⟨h1, h2, h3, h4⟩ := drivePhase_spec ragStoreName oracle now
      ((diffPhase ragStoreName (listing.filter isSupportedFile) tracker
        resumeMode now).1.1)
      ((diffPhase ragStoreName (listing.filter isSupportedFile) tracker
        resumeMode now).2)
      ((diffPhase ragStoreName (listing.filter isSupportedFile) tracker
        resumeMode now).1.2.1 ++
       (diffPhase ragStoreName (listing.filter isSupportedFile) tracker
        resumeMode now).1.2.2)
      hnd
    rw [hout]
    exact ⟨hnd, h1, h2, h4⟩

/-! ## Claim theorems -/

/-- C10: for a store id absent from the persisted ledger,
`deduplicateTrackerEntries` returns `(0, 0, 0)` and performs no write: the
persisted tracker is returned unchanged. -/
theorem C10_dedup_absent_store_noop (now : String) (tracker : UploadTracker)
    (ragStoreName : String) (h : findEntry tracker ragStoreName = none) :
    deduplicateTrackerEntries now tracker ragStoreName = ((0, 0, 0), tracker) := by
  simp [deduplicateTrackerEntries, h]

/-- C10 witness: concrete instance on the empty tracker. -/
theorem C10_dedup_absent_store_noop_witness :
    deduplicateTrackerEntries "t0" [] "s" = ((0, 0, 0), []) :=
  C10_dedup_absent_store_noop "t0" [] "s" rfl

/-- C4: the ledger never records a filename twice for a store:
`recordSuccess` (`addUploadedFile`) is a no-op — no append, no `lastUpdate`
change, no write — when the filename is already present; any sequence of
`recordSuccess` calls preserves duplicate-freedom of every store entry; and
`listUploaded` (`listDocumentsInRagStore`) returns a duplicate-free list
with the same members and persists the collapsed entry before returning. -/
theorem C4_ledger_set_invariant :
    (∀ (now : String) (t : UploadTracker) (store file : String) (e : TrackerEntry),
      findEntry t store = some e → file ∈ e.uploadedFiles →
        addUploadedFile now t store file = t) ∧
    (∀ (calls : List (String × String × String)) (t : UploadTracker),
      trackerWF t → trackerWF (runRecordSuccess calls t)) ∧
    (∀ (now : String) (t : UploadTracker) (store : String),
      (listDocumentsInRagStore now t store).1.Nodup) ∧
    (∀ (now : String) (t : UploadTracker) (store : String) (e : TrackerEntry),
      findEntry t store = some e →
        ∃ e', findEntry (listDocumentsInRagStore now t store).2 store = some e' ∧
          e'.uploadedFiles = dedupFirst e.uploadedFiles ∧
          e'.uploadedFiles.Nodup ∧
          (∀ f, f ∈ e'.uploadedFiles ↔ f ∈ e.uploadedFiles)) := by
  refine ⟨addUploadedFile_mem_noop, runRecordSuccess_WF, ?_, ?_⟩
  · intro now t store
    rw [listDocuments_fst]
    exact dedupFirst_nodup _
  · intro now t store e h
    obtain ⟨e', h1, h2⟩ := listDocuments_heals now t store e h
    refine ⟨e', h1, h2, ?_, ?_⟩
    · rw [h2]
      exact dedupFirst_nodup _
    · intro f
      rw [h2]
      exact mem_dedupFirst

/-- C4 witness: concrete instances — a duplicate `recordSuccess` is a
no-op, a call sequence from the empty ledger is duplicate-free, and
`listUploaded` collapses a corrupted entry and persists it. -/
theorem C4_ledger_set_invariant_witness :
    (addUploadedFile "t1" [("s", { uploadedFiles := ["a"], lastUpdate := "t0" })] "s" "a"
        = [("s", { uploadedFiles := ["a"], lastUpdate := "t0" })]) ∧
    trackerWF (runRecordSuccess [("t1", "s", "a"), ("t2", "s", "a"), ("t3", "s", "b")] []) ∧
    (listDocumentsInRagStore "t4"
      [("s", { uploadedFiles := ["a", "a", "b"], lastUpdate := "t0" })] "s").1.Nodup ∧
    (∃ e', findEntry (listDocumentsInRagStore "t4"
        [("s", { uploadedFiles := ["a", "a", "b"], lastUpdate := "t0" })] "s").2 "s" =
          some e' ∧
      e'.uploadedFiles = dedupFirst ["a", "a", "b"] ∧
      e'.uploadedFiles.Nodup ∧
      (∀ f, f ∈ e'.uploadedFiles ↔ f ∈ (["a", "a", "b"] : List String))) :=
  ⟨C4_ledger_set_invariant.1 "t1" _ "s" "a"
      { uploadedFiles := ["a"], lastUpdate := "t0" } (by decide) (by decide),
   C4_ledger_set_invariant.2.1 _ []
      (fun k e h => by simp [findEntry] at h),
   C4_ledger_set_invariant.2.2.1 "t4" _ "s",
   C4_ledger_set_invariant.2.2.2 "t4" _ "s"
      { uploadedFiles := ["a", "a", "b"], lastUpdate := "t0" } (by decide)⟩

/-- C2 counterexample: with the default `maxRetries = 5` and every attempt
failing, only four backoff sleeps happen — 2000, 4000, 8000 and 16000 ms;
the 32 s delay named by the claim never occurs, because the final attempt
rethrows without sleeping. -/
theorem C2_retry_backoff_counterexample :
    (uploadFileToRagStore "doc.pdf" (fun _ => Except.error "network error")
        (fun _ _ => false)).backoffDelays = [2000, 4000, 8000, 16000] ∧
    32000 ∉ (uploadFileToRagStore "doc.pdf" (fun _ => Except.error "network error")
        (fun _ _ => false)).backoffDelays ∧
    (uploadFileToRagStore "doc.pdf" (fun _ => Except.error "network error")
        (fun _ _ => false)).backoffDelays.length = maxRetriesDefault - 1 := by
  decide

/-- C2 (amended): when every submit-and-poll attempt fails,
`uploadFileToRagStore` uses exactly `maxRetries = 5` attempts, sleeps
between consecutive attempts with delays `base * 2 ^ attempt`
(2 s, 4 s, 8 s, 16 s — `maxRetries - 1` strictly increasing sleeps; no 32 s
sleep occurs), and fails with the upload-failed error carrying the file
name, the attempt count `maxRetries`, and the last error. -/
theorem C2_retry_backoff_bound (fileName : String) (errs : Nat → String)
    (doneAt : Nat → Nat → Bool) :
    ((uploadFileToRagStore fileName (fun a => Except.error (errs a)) doneAt).result =
        Except.error (uploadFailedMsg fileName maxRetriesDefault (errs 4)) ∧
      (uploadFileToRagStore fileName (fun a => Except.error (errs a))
        doneAt).attemptsMade = maxRetriesDefault ∧
      (uploadFileToRagStore fileName (fun a => Except.error (errs a))
        doneAt).backoffDelays =
        (List.range (maxRetriesDefault - 1)).map
          (fun attempt => baseDelayDefault * 2 ^ attempt) ∧
      (uploadFileToRagStore fileName (fun a => Except.error (errs a))
        doneAt).backoffDelays = [2000, 4000, 8000, 16000] ∧
      List.Chain' (fun x y => x < y)
        (uploadFileToRagStore fileName (fun a => Except.error (errs a))
          doneAt).backoffDelays) := by
  have hbody : ∀ a,
      attemptUpload fileName (fun a => Except.error (errs a)) doneAt
        maxPollAttemptsDefault a = Except.error (errs a) :=
    fun a => attemptUpload_submit_error fileName _ doneAt maxPollAttemptsDefault a
      (errs a) rfl
  have h := retryLoop_allFail fileName
    (attemptUpload fileName (fun a => Except.error (errs a)) doneAt
      maxPollAttemptsDefault)
    errs maxRetriesDefault baseDelayDefault hbody maxRetriesDefault 0
    (by norm_num [maxRetriesDefault]) (by norm_num [maxRetriesDefault])
  have hu : uploadFileToRagStore fileName (fun a => Except.error (errs a)) doneAt =
      retryLoop fileName
        (attemptUpload fileName (fun a => Except.error (errs a)) doneAt
          maxPollAttemptsDefault)
        maxRetriesDefault baseDelayDefault 0 maxRetriesDefault := rfl
  rw [hu, h]
  refine ⟨rfl, rfl, ?_, ?_, ?_⟩
  · apply List.map_congr_left
    intro a _
    simp
  · show (List.range (maxRetriesDefault - 1)).map
        (fun j => baseDelayDefault * 2 ^ (0 + j)) = [2000, 4000, 8000, 16000]
    decide
  · show List.Chain' (fun x y => x < y)
      ((List.range (maxRetriesDefault - 1)).map
        (fun j => baseDelayDefault * 2 ^ (0 + j)))
    have hdelays : (List.range (maxRetriesDefault - 1)).map
        (fun j => baseDelayDefault * 2 ^ (0 + j)) = [2000, 4000, 8000, 16000] := by
      decide
    rw [hdelays]
    norm_num [List.chain'_cons]

/-- C6: within one attempt the operation is polled (at the fixed 3 s
interval) at most `maxPollAttempts = 120` times; when it never completes
the attempt fails with the timeout error carrying the elapsed duration
(`120 * 3` seconds) after exactly 120 polls, and this timeout is treated
exactly like a transient error: it consumes one attempt and triggers the
backoff-and-retry of the enclosing loop (here: one 2000 ms backoff, then a
second attempt that succeeds) instead of failing the file immediately. -/
theorem C6_poll_timeout_is_retried :
    (∀ (fileName : String) (doneAt : Nat → Bool), (∀ n, doneAt n = false) →
      pollOperationLoop fileName doneAt maxPollAttemptsDefault =
        (Except.error (timeoutMsg fileName maxPollAttemptsDefault),
          maxPollAttemptsDefault)) ∧
    (∀ (fileName : String) (submitResult : Nat → Except String Unit)
        (doneAt : Nat → Nat → Bool),
      (∀ a, submitResult a = Except.ok ()) →
      (∀ n, doneAt 0 n = false) → doneAt 1 0 = true →
      ((uploadFileToRagStore fileName submitResult doneAt).result =
          Except.ok () ∧
        (uploadFileToRagStore fileName submitResult doneAt).backoffDelays =
          [baseDelayDefault] ∧
        (uploadFileToRagStore fileName submitResult doneAt).attemptsMade = 2)) := by
  constructor
  · intro fileName doneAt h
    exact pollOperationLoop_timeout fileName doneAt maxPollAttemptsDefault h
  · intro fileName submitResult doneAt hsub h0 h1
    have hb0 : attemptUpload fileName submitResult doneAt maxPollAttemptsDefault 0 =
        Except.error (timeoutMsg fileName maxPollAttemptsDefault) := by
      rw [attemptUpload_submit_ok fileName submitResult doneAt maxPollAttemptsDefault 0
          (hsub 0),
        pollOperationLoop_timeout fileName (doneAt 0) maxPollAttemptsDefault h0]
    have hb1 : attemptUpload fileName submitResult doneAt maxPollAttemptsDefault 1 =
        Except.ok () := by
      rw [attemptUpload_submit_ok fileName submitResult doneAt maxPollAttemptsDefault 1
          (hsub 1),
        pollOperationLoop_done0 fileName (doneAt 1) maxPollAttemptsDefault h1]
    have hu : uploadFileToRagStore fileName submitResult doneAt =
        retryLoop fileName
          (attemptUpload fileName submitResult doneAt maxPollAttemptsDefault)
          5 baseDelayDefault 0 5 := rfl
    have hstep1 : retryLoop fileName
        (attemptUpload fileName submitResult doneAt maxPollAttemptsDefault)
        5 baseDelayDefault 1 4 =
        { result := Except.ok (), backoffDelays := [], attemptsMade := 1 } := by
      rw [show (4 : Nat) = 3 + 1 from rfl, retryLoop_succ, hb1]
      norm_num
    have hstep0 : retryLoop fileName
        (attemptUpload fileName submitResult doneAt maxPollAttemptsDefault)
        5 baseDelayDefault 0 5 =
        { result := Except.ok (), backoffDelays := [baseDelayDefault],
          attemptsMade := 2 } := by
      rw [show (5 : Nat) = 4 + 1 from rfl, retryLoop_succ, hb0]
      norm_num
      rw [hstep1]
      norm_num
    rw [hu, hstep0]
    exact ⟨rfl, rfl, rfl⟩

/-- C6 witness: a concrete never-completing first attempt and an
immediately-completing second attempt. -/
theorem C6_poll_timeout_is_retried_witness :
    (pollOperationLoop "doc.pdf" (fun _ => false) maxPollAttemptsDefault =
      (Except.error (timeoutMsg "doc.pdf" maxPollAttemptsDefault),
        maxPollAttemptsDefault)) ∧
    ((uploadFileToRagStore "doc.pdf" (fun _ => Except.ok ())
        (fun a _ => decide (a = 1))).result = Except.ok () ∧
      (uploadFileToRagStore "doc.pdf" (fun _ => Except.ok ())
        (fun a _ => decide (a = 1))).backoffDelays = [baseDelayDefault] ∧
      (uploadFileToRagStore "doc.pdf" (fun _ => Except.ok ())
        (fun a _ => decide (a = 1))).attemptsMade = 2) :=
  ⟨C6_poll_timeout_is_retried.1 "doc.pdf" (fun _ => false) (fun _ => rfl),
   C6_poll_timeout_is_retried.2 "doc.pdf" (fun _ => Except.ok ())
     (fun a _ => decide (a = 1)) (fun _ => rfl) (fun _ => rfl) rfl⟩

/-- C5: for a non-empty set of remote stores sharing a display name,
`getRagStoreByDisplayName` (the canonical resolution) returns the name of a
matching store whose document count is maximal and which is the first
matching store achieving that maximum (every earlier match has a strictly
smaller count); and on the concrete duplicate set with counts `[5, 12, 3]`,
the canonical store is the one with count 12, `cleanupDuplicateStores`
deletes exactly the other two matching stores, reports
`found = 3`, `deleted = 2`, the kept store id and the deleted ids, and
leaves exactly the count-12 store. -/
theorem C5_canonical_store_resolution :
    (∀ (stores : List RagStore) (displayName : String) (b : RagStore)
        (rest : List RagStore),
      stores.filter (fun s => s.displayName == displayName) = b :: rest →
      ∃ l₁ l₂,
        b :: rest = l₁ ++ pickCanonical b rest :: l₂ ∧
        getRagStoreByDisplayName stores displayName =
          some (pickCanonical b rest).name ∧
        (∀ s ∈ b :: rest,
          s.activeDocumentsCount ≤ (pickCanonical b rest).activeDocumentsCount) ∧
        (∀ s ∈ l₁,
          s.activeDocumentsCount < (pickCanonical b rest).activeDocumentsCount)) ∧
    (getRagStoreByDisplayName demoStores "Docs" = some "s2" ∧
      cleanupDuplicateStores "Docs" demoRemoteState [] =
        ({ found := 3, deleted := 2, kept := some "s2",
           deletedStores := ["s1", "s3"] },
         { stores := [demoStore2], nextId := 0 }, []) ∧
      demoRemoteState.stores.filter (fun s => s.displayName == "Docs") =
        [demoStore1, demoStore2, demoStore3] ∧
      demoStore2.activeDocumentsCount = 12) := by
  constructor
  · intro stores displayName b rest hfilter
    obtain ⟨l₁, l₂, heq, hmax, hlt⟩ := pickCanonical_split rest b
    refine ⟨l₁, l₂, heq, ?_, hmax, hlt⟩
    rw [getRagStoreByDisplayName, hfilter]
  · refine ⟨by decide, by decide, by decide, by decide⟩

/-- C5 witness: the general canonical-resolution statement applied to the
concrete duplicate set. -/
theorem C5_canonical_store_resolution_witness :
    ∃ l₁ l₂,
      demoStore1 :: [demoStore2, demoStore3] =
        l₁ ++ pickCanonical demoStore1 [demoStore2, demoStore3] :: l₂ ∧
      getRagStoreByDisplayName demoStores "Docs" =
        some (pickCanonical demoStore1 [demoStore2, demoStore3]).name ∧
      (∀ s ∈ demoStore1 :: [demoStore2, demoStore3],
        s.activeDocumentsCount ≤
          (pickCanonical demoStore1 [demoStore2, demoStore3]).activeDocumentsCount) ∧
      (∀ s ∈ l₁,
        s.activeDocumentsCount <
          (pickCanonical demoStore1 [demoStore2, demoStore3]).activeDocumentsCount) :=
  C5_canonical_store_resolution.1 demoStores "Docs" demoStore1
    [demoStore2, demoStore3] (by decide)

/-- C7: `getOrCreateRagStore` is idempotent and self-healing.  Under the
remote invariant that store resource names are unique: calling it twice
with no intervening change yields the same store id both times with
`isNew = false` the second time; after any invocation at most one store
with the display name remains; and when more than one match existed the
call returns the canonical store (the one `getRagStoreByDisplayName`
selects) with `isNew = false`, deleting every non-canonical match. -/
theorem C7_getOrCreate_idempotent_selfhealing :
    ∀ (displayName : String) (st : RemoteState) (tracker : UploadTracker),
      (st.stores.map (fun s => s.name)).Nodup →
      ((getOrCreateRagStore displayName
          ((getOrCreateRagStore displayName st tracker).2.1)
          ((getOrCreateRagStore displayName st tracker).2.2)).1.1 =
        (getOrCreateRagStore displayName st tracker).1.1 ∧
       (getOrCreateRagStore displayName
          ((getOrCreateRagStore displayName st tracker).2.1)
          ((getOrCreateRagStore displayName st tracker).2.2)).1.2 = false ∧
       ((getOrCreateRagStore displayName st tracker).2.1.stores.filter
          (fun s => s.displayName == displayName)).length ≤ 1 ∧
       (2 ≤ (st.stores.filter (fun s => s.displayName == displayName)).length →
        (getOrCreateRagStore displayName st tracker).1.2 = false ∧
        getRagStoreByDisplayName st.stores displayName =
          some (getOrCreateRagStore displayName st tracker).1.1 ∧
        (∀ s ∈ st.stores, s.displayName = displayName →
          s.name ≠ (getOrCreateRagStore displayName st tracker).1.1 →
          s ∉ (getOrCreateRagStore displayName st tracker).2.1.stores))) := by
  intro displayName st tracker hnd
  cases hfe : st.stores.filter (fun s => s.displayName == displayName) with
  | nil =>
    have h1 : getOrCreateRagStore displayName st tracker =
        (("fileSearchStores/store-" ++ toString st.nextId, true),
         { stores := st.stores ++
             [{ name := "fileSearchStores/store-" ++ toString st.nextId,
                displayName := displayName, activeDocumentsCount := 0 }],
           nextId := st.nextId + 1 }, tracker) := by
      simp [getOrCreateRagStore, hfe, createRagStore]
    refine ⟨?_, ?_, ?_, ?_⟩
    · rw [h1]
      simp [getOrCreateRagStore, hfe]
    · rw [h1]
      simp [getOrCreateRagStore, hfe]
    · rw [h1]
      simp [hfe]
    · intro habs
      simp at habs
  | cons b rest0 =>
    cases rest0 with
    | nil =>
      have h1 : getOrCreateRagStore displayName st tracker =
          ((b.name, false), st, tracker) := by
        simp [getOrCreateRagStore, hfe]
      refine ⟨?_, ?_, ?_, ?_⟩
      · rw [h1]
        simp [getOrCreateRagStore, hfe]
      · rw [h1]
        simp [getOrCreateRagStore, hfe]
      · rw [h1]
        simp [hfe]
      · intro habs
        simp at habs
    | cons c rest =>
      obtain ⟨l₁, l₂, hsplit, hmax, hlt⟩ := pickCanonical_split (c :: rest) b
      have hkeepmem : pickCanonical b (c :: rest) ∈ b :: c :: rest := by
        rw [hsplit]
        exact List.mem_append.mpr (Or.inr (List.mem_cons_self _ _))
      have hkeepfilter : pickCanonical b (c :: rest) ∈
          st.stores.filter (fun s => s.displayName == displayName) := by
        rw [hfe]
        exact hkeepmem
      have hkeepst : pickCanonical b (c :: rest) ∈ st.stores :=
        (List.mem_filter.mp hkeepfilter).1
      have hkeepdn : ((pickCanonical b (c :: rest)).displayName == displayName) =
          true := (List.mem_filter.mp hkeepfilter).2
      have hA : (getOrCreateRagStore displayName st tracker).1 =
          ((pickCanonical b (c :: rest)).name, false) := by
        simp [getOrCreateRagStore, hfe]
      have hB : (getOrCreateRagStore displayName st tracker).2.1.stores =
          st.stores.filter (fun t =>
            ((b :: c :: rest).filter
              (fun s => s.name != (pickCanonical b (c :: rest)).name)).all
              (fun s => t.name != s.name)) := by
        simp only [getOrCreateRagStore, hfe]
        rw [foldl_delete_stores]
      have hqkeep : (((b :: c :: rest).filter
          (fun s => s.name != (pickCanonical b (c :: rest)).name)).all
            (fun s => (pickCanonical b (c :: rest)).name != s.name)) = true := by
        rw [List.all_eq_true]
        intro s hs
        have hs' := List.mem_filter.mp hs
        exact bne_iff_ne.mpr (Ne.symm (bne_iff_ne.mp hs'.2))
      have hfilter1 : (getOrCreateRagStore displayName st tracker).2.1.stores.filter
          (fun s => s.displayName == displayName) = [pickCanonical b (c :: rest)] := by
        rw [hB, List.filter_filter]
        apply filter_eq_singleton_of_unique st.stores _ (pickCanonical b (c :: rest))
          (List.Nodup.of_map _ hnd) hkeepst
        · rw [Bool.and_eq_true]
          exact ⟨hkeepdn, hqkeep⟩
        · intro t ht hpt
          rw [Bool.and_eq_true] at hpt
          by_contra hne
          have hnames : t.name ≠ (pickCanonical b (c :: rest)).name := by
            intro h
            exact hne (name_inj_of_nodup st.stores hnd t ht _ hkeepst h)
          have htmatch : t ∈ b :: c :: rest := by
            rw [← hfe]
            exact List.mem_filter.mpr ⟨ht, hpt.1⟩
          have htD : t ∈ (b :: c :: rest).filter
              (fun s => s.name != (pickCanonical b (c :: rest)).name) :=
            List.mem_filter.mpr ⟨htmatch, bne_iff_ne.mpr hnames⟩
          have := (List.all_eq_true.mp hpt.2) t htD
          simp at this
      have hsecond : getOrCreateRagStore displayName
          ((getOrCreateRagStore displayName st tracker).2.1)
          ((getOrCreateRagStore displayName st tracker).2.2) =
          (((pickCanonical b (c :: rest)).name, false),
           (getOrCreateRagStore displayName st tracker).2.1,
           (getOrCreateRagStore displayName st tracker).2.2) := by
        generalize hg : getOrCreateRagStore displayName st tracker = g at hfilter1 ⊢
        simp [getOrCreateRagStore, hfilter1]
      refine ⟨?_, ?_, ?_, ?_⟩
      · rw [hsecond, hA]
      · rw [hsecond]
      · rw [hfilter1]
        simp
      · intro _
        refine ⟨?_, ?_, ?_⟩
        · rw [show (getOrCreateRagStore displayName st tracker).1.2 =
            ((pickCanonical b (c :: rest)).name, false).2 from congrArg Prod.snd hA]
        · rw [getRagStoreByDisplayName, hfe,
            show (getOrCreateRagStore displayName st tracker).1.1 =
              (pickCanonical b (c :: rest)).name from congrArg Prod.fst hA]
        · intro s hs hdisp hname hmem1
          rw [hB] at hmem1
          have hmem2 := List.mem_filter.mp hmem1
          have hsname : s.name ≠ (pickCanonical b (c :: rest)).name := by
            intro h
            apply hname
            rw [show (getOrCreateRagStore displayName st tracker).1.1 =
              (pickCanonical b (c :: rest)).name from congrArg Prod.fst hA]
            exact h
          have hsD : s ∈ (b :: c :: rest).filter
              (fun t => t.name != (pickCanonical b (c :: rest)).name) := by
            refine List.mem_filter.mpr ⟨?_, bne_iff_ne.mpr hsname⟩
            rw [← hfe]
            exact List.mem_filter.mpr ⟨hs, by simp [hdisp]⟩
          have := (List.all_eq_true.mp hmem2.2) s hsD
          simp at this

/-- C7 witness: the duplicate demo set — both calls return the canonical
store "s2", the second with `isNew = false`, one "Docs" store remains, and
the non-canonical store "s1" was deleted. -/
theorem C7_getOrCreate_idempotent_selfhealing_witness :
    (getOrCreateRagStore "Docs"
        ((getOrCreateRagStore "Docs" demoRemoteState []).2.1)
        ((getOrCreateRagStore "Docs" demoRemoteState []).2.2)).1.1 =
      (getOrCreateRagStore "Docs" demoRemoteState []).1.1 ∧
    (getOrCreateRagStore "Docs"
        ((getOrCreateRagStore "Docs" demoRemoteState []).2.1)
        ((getOrCreateRagStore "Docs" demoRemoteState []).2.2)).1.2 = false ∧
    ((getOrCreateRagStore "Docs" demoRemoteState []).2.1.stores.filter
        (fun s => s.displayName == "Docs")).length ≤ 1 ∧
    (getOrCreateRagStore "Docs" demoRemoteState []).1.2 = false ∧
    getRagStoreByDisplayName demoRemoteState.stores "Docs" =
      some (getOrCreateRagStore "Docs" demoRemoteState []).1.1 ∧
    demoStore1 ∉ (getOrCreateRagStore "Docs" demoRemoteState []).2.1.stores :=
  have h := C7_getOrCreate_idempotent_selfhealing "Docs" demoRemoteState [] (by decide)
  ⟨h.1, h.2.1, h.2.2.1,
   (h.2.2.2 (by decide)).1,
   (h.2.2.2 (by decide)).2.1,
   (h.2.2.2 (by decide)).2.2 demoStore1 (by decide) (by decide) (by decide)⟩

/-- C1: the Corpus Differ of `uploadDirectoryToRagStore` deduplicates the
listed filenames keeping the first occurrence of each (`toUpload` is
duplicate-free, a subsequence of the listing, and orders kept names by
their first occurrence in the listing), records exactly the filenames
occurring more than once in the duplicate-skip list, and in resume mode
additionally excludes — and records as already-uploaded skips — exactly
the listed filenames present in the ledger. -/
theorem C1_corpus_differ_diff :
    ∀ (files ledger : List String) (resume : Bool),
      ((corpusDiffer files ledger resume).1.Nodup ∧
        (corpusDiffer files ledger resume).1.Sublist files ∧
        (∀ f, f ∈ (corpusDiffer files ledger resume).1 ↔
          f ∈ files ∧ (resume = true → f ∉ ledger)) ∧
        (∀ f, f ∈ (corpusDiffer files ledger resume).2.1 ↔ 2 ≤ files.count f) ∧
        (∀ f, f ∈ (corpusDiffer files ledger resume).2.2 ↔
          resume = true ∧ f ∈ files ∧ f ∈ ledger) ∧
        (∀ a b, a ∈ (corpusDiffer files ledger resume).1 →
          b ∈ (corpusDiffer files ledger resume).1 →
          ((corpusDiffer files ledger resume).1.indexOf a ≤
              (corpusDiffer files ledger resume).1.indexOf b ↔
            files.indexOf a ≤ files.indexOf b))) :=
  fun files ledger resume =>
    ⟨corpusDiffer_fst_nodup files ledger resume,
     corpusDiffer_fst_sublist files ledger resume,
     corpusDiffer_fst_mem files ledger resume,
     corpusDiffer_dups_mem files ledger resume,
     corpusDiffer_already_mem files ledger resume,
     corpusDiffer_fst_order files ledger resume⟩

/-- C1 witness: the spec's own examples — directory `[A, B, A, C]` with an
empty ledger, and resume over `[A, B, C]` with ledger `{B}` — plus an
order instance. -/
theorem C1_corpus_differ_diff_witness :
    (corpusDiffer ["A", "B", "A", "C"] [] false).1.Nodup ∧
    ("A" ∈ (corpusDiffer ["A", "B", "A", "C"] [] false).2.1 ↔
      2 ≤ (["A", "B", "A", "C"] : List String).count "A") ∧
    ("B" ∈ (corpusDiffer ["A", "B", "C"] ["B"] true).2.2 ↔
      true = true ∧ "B" ∈ (["A", "B", "C"] : List String) ∧
        "B" ∈ (["B"] : List String)) ∧
    ((corpusDiffer ["A", "B", "C"] ["B"] true).1.indexOf "A" ≤
        (corpusDiffer ["A", "B", "C"] ["B"] true).1.indexOf "C" ↔
      (["A", "B", "C"] : List String).indexOf "A" ≤
        (["A", "B", "C"] : List String).indexOf "C") :=
  ⟨(C1_corpus_differ_diff ["A", "B", "A", "C"] [] false).1,
   (C1_corpus_differ_diff ["A", "B", "A", "C"] [] false).2.2.2.1 "A",
   (C1_corpus_differ_diff ["A", "B", "C"] ["B"] true).2.2.2.2.1 "B",
   (C1_corpus_differ_diff ["A", "B", "C"] ["B"] true).2.2.2.2.2 "A" "C"
     (by decide) (by decide)⟩

/-- C3: a single file's upload failure is recorded as `(fileName, error)`
in the failed list and the loop continues: every file of `toUpload` is
attempted (an upload-attempt event for it is in the trace) and every
success lands in `successful`; and the 5-document batch whose third
document always fails yields `successful.length = 4`,
`failed.length = 1`. -/
theorem C3_batch_resilience :
    (∀ (ragStoreName : String) (listing : List String) (tracker : UploadTracker)
        (oracle : String → Except String Unit) (resumeMode : Bool) (now : String)
        (out : SyncOutcome),
      uploadDirectoryToRagStore ragStoreName listing tracker oracle resumeMode now =
        Except.ok out →
      ((∀ f e, f ∈ out.filesToUpload → oracle f = Except.error e →
          (f, e) ∈ out.result.failed) ∧
        (∀ f, f ∈ out.filesToUpload → oracle f = Except.ok () →
          f ∈ out.result.successful) ∧
        (∀ f, f ∈ out.filesToUpload →
          SyncEvent.uploadAttempt f ∈ out.trace))) ∧
    ((uploadDirectoryToRagStore "st" demoBatchListing [] demoBatchOracle false
        "t0").map (fun out => (out.result.successful.length,
          out.result.failed.length)) = Except.ok (4, 1)) := by
  constructor
  · intro rag listing tracker oracle resume now out heq
    obtain ⟨hnd, hsucc, hfail, htrace⟩ :=
      uploadDirectory_ok_spec rag listing tracker oracle resume now out heq
    refine ⟨?_, ?_, ?_⟩
    · intro f e hf ho
      rw [hfail]
      exact List.mem_filterMap.mpr ⟨f, hf, by simp [failureEntry, ho]⟩
    · intro f hf ho
      rw [hsucc]
      exact List.mem_filter.mpr ⟨hf, by simp [oracleOk, ho]⟩
    · intro f hf
      rw [htrace]
      exact uploadAttempt_mem_traceOfRun oracle _ _ 0 f hf
  · decide

/-- C3 witness: the 5-document batch with document 3 failing. -/
theorem C3_batch_resilience_witness :
    ("d3.txt", "boom") ∈ demoBatchOutcome.result.failed ∧
    "d4.txt" ∈ demoBatchOutcome.result.successful ∧
    SyncEvent.uploadAttempt "d5.txt" ∈ demoBatchOutcome.trace :=
  have h := C3_batch_resilience.1 "st" demoBatchListing [] demoBatchOracle false
    "t0" demoBatchOutcome (by decide)
  ⟨h.1 "d3.txt" "boom" (by decide) (by decide),
   h.2.1 "d4.txt" (by decide) (by decide),
   h.2.2 "d5.txt" (by decide)⟩

/-- C9: every element of the computed `toUpload` ends up in exactly one of
`successful` or `failed` (so their lengths add up to `toUpload.length`),
and the in-session duplicate guard never fires — no session-skip event
ever appears in the trace — because `toUpload` is duplicate-free by
construction. -/
theorem C9_upload_partition :
    ∀ (ragStoreName : String) (listing : List String) (tracker : UploadTracker)
      (oracle : String → Except String Unit) (resumeMode : Bool) (now : String)
      (out : SyncOutcome),
      uploadDirectoryToRagStore ragStoreName listing tracker oracle resumeMode now =
        Except.ok out →
      (out.result.successful.length + out.result.failed.length =
          out.filesToUpload.length ∧
        (∀ f, f ∈ out.filesToUpload →
          ((f ∈ out.result.successful ∧ ∀ e, (f, e) ∉ out.result.failed) ∨
            (f ∉ out.result.successful ∧ ∃ e, (f, e) ∈ out.result.failed))) ∧
        (∀ f, SyncEvent.sessionSkip f ∉ out.trace)) := by
  intro rag listing tracker oracle resume now out heq
  obtain ⟨hnd, hsucc, hfail, htrace⟩ :=
    uploadDirectory_ok_spec rag listing tracker oracle resume now out heq
  refine ⟨?_, ?_, ?_⟩
  · rw [hsucc, hfail]
    exact filter_filterMap_length oracle out.filesToUpload
  · intro f hf
    cases ho : oracle f with
    | ok u =>
      left
      constructor
      · rw [hsucc]
        exact List.mem_filter.mpr ⟨hf, by simp [oracleOk, ho]⟩
      · intro e hmem
        rw [hfail] at hmem
        obtain ⟨g, hg, hfe⟩ := List.mem_filterMap.mp hmem
        cases hog : oracle g with
        | ok v => simp [failureEntry, hog] at hfe
        | error e' =>
          simp [failureEntry, hog] at hfe
          rcases hfe with ⟨rfl, rfl⟩
          exact Except.noConfusion (ho.symm.trans hog)
    | error e0 =>
      right
      constructor
      · intro hmem
        rw [hsucc] at hmem
        have := (List.mem_filter.mp hmem).2
        simp [oracleOk, ho] at this
      · refine ⟨e0, ?_⟩
        rw [hfail]
        exact List.mem_filterMap.mpr ⟨f, hf, by simp [failureEntry, ho]⟩
  · intro f
    rw [htrace]
    exact sessionSkip_not_mem_traceOfRun oracle _ _ 0 f

/-- C9 witness: the 5-document batch — 4 + 1 = 5, the failing document is
not among the successes, and no session-skip event was emitted. -/
theorem C9_upload_partition_witness :
    (demoBatchOutcome.result.successful.length +
        demoBatchOutcome.result.failed.length =
      demoBatchOutcome.filesToUpload.length) ∧
    "d3.txt" ∉ demoBatchOutcome.result.successful ∧
    SyncEvent.sessionSkip "d3.txt" ∉ demoBatchOutcome.trace := by
  have h := C9_upload_partition "st" demoBatchListing [] demoBatchOracle false
    "t0" demoBatchOutcome (by decide)
  refine ⟨h.1, ?_, h.2.2 "d3.txt"⟩
  rcases h.2.1 "d3.txt" (by decide) with ⟨hmem, -⟩ | ⟨hnot, -⟩
  · exact absurd hmem (by decide)
  · exact hnot

/-- C8 counterexample: in a concrete one-file run the emitted trace is
`[progress, uploadAttempt, ledgerWrite]` — the ledger write for the file
does NOT happen before its progress event, and the progress event is NOT
emitted after the upload attempt: the progress callback fires first, before
the attempt and before the ledger write. -/
theorem C8_ordering_counterexample :
    (uploadDirectoryToRagStore "st" ["a.txt"] [] (fun _ => Except.ok ()) false
        "t0").map (fun out => out.trace) = Except.ok demoSingleTrace ∧
    ¬ (demoSingleTrace.indexOf (SyncEvent.ledgerWrite "a.txt") <
        demoSingleTrace.indexOf (SyncEvent.progress 1 1 "a.txt")) ∧
    ¬ (demoSingleTrace.indexOf (SyncEvent.uploadAttempt "a.txt") <
        demoSingleTrace.indexOf (SyncEvent.progress 1 1 "a.txt")) := by
  decide

/-- C8 (amended): within one sync run, for every file of `toUpload` the
events appear as the contiguous block `perFileEvents` — the progress event
`(currentIndex, totalToUpload, fileName)` is emitted first, before that
file's upload attempt, which precedes the ledger write recording its
success; the ledger write therefore happens after (not before) the
progress event, and the progress event precedes (not follows) the
attempt. -/
theorem C8_progress_before_attempt_and_ledger :
    ∀ (ragStoreName : String) (listing : List String) (tracker : UploadTracker)
      (oracle : String → Except String Unit) (resumeMode : Bool) (now : String)
      (out : SyncOutcome),
      uploadDirectoryToRagStore ragStoreName listing tracker oracle resumeMode now =
        Except.ok out →
      ∀ (j : Nat) (f : String), out.filesToUpload[j]? = some f →
        ∃ pre post, out.trace =
          pre ++ perFileEvents oracle out.filesToUpload.length j f ++ post := by
  intro rag listing tracker oracle resume now out heq j f hj
  obtain ⟨hnd, hsucc, hfail, htrace⟩ :=
    uploadDirectory_ok_spec rag listing tracker oracle resume now out heq
  rw [htrace]
  have h := traceOfRun_block oracle out.filesToUpload.length out.filesToUpload
    0 j f hj
  simpa using h

/-- C8 witness: the one-file run — its trace is exactly one per-file
block. -/
theorem C8_progress_before_attempt_and_ledger_witness :
    ∃ pre post, demoSingleOutcome.trace =
      pre ++ perFileEvents (fun _ => Except.ok ())
        demoSingleOutcome.filesToUpload.length 0 "a.txt" ++ post :=
  C8_progress_before_attempt_and_ledger "st" ["a.txt"] [] (fun _ => Except.ok ())
    false "t0" demoSingleOutcome (by decide) 0 "a.txt" (by decide)

end RAG
